import Mathlib

/-!
# Verification of the MQTT 3.1.1 client protocol engine (gsm_mqtt_client.c)

A shallow embedding of the MQTT client protocol engine found in
src/gsm_at_lib/src/apps/mqtt/gsm_mqtt_client.c, together with theorems that
settle the specification claims about it.

Bytes are modelled as natural numbers (always < 256 where the source has
uint8_t); machine-integer truncation is made explicit with `% 2^w` at the
places the C code truncates (uint16_t parameters, uint32_t fields).

The ring transmit buffer (gsm_buff) and the packet-buffer chain (gsm_pbuf)
are not part of the sources; where they are needed they are modelled from
the specification's description and marked as such.
-/

set_option maxHeartbeats 1000000
set_option maxRecDepth 8192

namespace MqttClient

/-! ## Remaining-length variable-length integer: encoder and decoder

The encoder is the do-while loop of write_fixed_header (one byte of 7 bits,
continuation bit 0x80, at least one byte even for 0).  The decoder is the
accumulation performed by the parser state CALC_REM_LEN. -/

/-- The byte sequence the do-while loop of write_fixed_header emits for a
given remaining length.  The C loop runs at least once and keeps shifting
the value right by 7 bits while it is nonzero. -/
def encode_rem_len (rem_len : Nat) : List Nat :=
  let b := (rem_len &&& 0x7F) ||| (if rem_len > 0x7F then 0x80 else 0)
  if h : rem_len > 0x7F then
    b :: encode_rem_len (rem_len >>> 7)
  else
    [b]
decreasing_by
  simp only [Nat.shiftRight_eq_div_pow]
  exact Nat.div_lt_self (by omega) (by norm_num)

/-- The number of loop iterations of the do-while in
output_check_enough_memory that counts the remaining-length bytes. -/
def rem_len_enc_size (rem_len : Nat) : Nat :=
  if h : rem_len > 0x7F then 1 + rem_len_enc_size (rem_len >>> 7) else 1
decreasing_by
  simp only [Nat.shiftRight_eq_div_pow]
  exact Nat.div_lt_self (by omega) (by norm_num)

/-- Decoder accumulation of parser state CALC_REM_LEN:
rem_len |= (ch AND 0x7F) shifted left by 7 * mult, on a uint32_t field. -/
def calc_rem_len_step (rem_len mult ch : Nat) : Nat :=
  (rem_len ||| ((ch &&& 0x7F) <<< (7 * mult))) % 2 ^ 32

/-- The parser's remaining-length decoder, fed the encoder's bytes in order:
byte i contributes its low 7 bits shifted left by 7 * i. -/
def decode_rem_len_from (mult acc : Nat) : List Nat → Nat
  | [] => acc
  | b :: bs => decode_rem_len_from (mult + 1) (calc_rem_len_step acc mult b) bs

def decode_rem_len (bs : List Nat) : Nat :=
  decode_rem_len_from 0 0 bs

/-! ### Arithmetic facts about the encoder -/

theorem encode_rem_len_le (n : Nat) (h : n ≤ 0x7F) : encode_rem_len n = [n] := by
  rw [encode_rem_len]
  simp only [show ¬ (n > 0x7F) by omega, if_false, dif_neg (by omega : ¬ (n > 0x7F))]
  have hn : n &&& 0x7F = n := by
    have := Nat.and_pow_two_sub_one_eq_mod n 7
    norm_num at this
    omega
  simp [hn]

theorem encode_rem_len_gt (n : Nat) (h : n > 0x7F) :
    encode_rem_len n = (n % 128 + 128) :: encode_rem_len (n / 128) := by
  rw [encode_rem_len]
  simp only [dif_pos h, if_pos h]
  have h1 : n &&& 0x7F = n % 128 := by
    have := Nat.and_pow_two_sub_one_eq_mod n 7
    norm_num at this
    exact this
  have h2 : n % 128 ||| 0x80 = n % 128 + 128 := by
    have hlt : n % 128 < 128 := Nat.mod_lt _ (by norm_num)
    have h3 := Nat.mul_add_lt_is_or (b := n % 128) (i := 7) (by omega) 1
    norm_num at h3
    rw [Nat.or_comm]
    omega
  rw [h1, h2, Nat.shiftRight_eq_div_pow]

theorem encode_rem_len_length_one (n : Nat) (h : n ≤ 127) :
    (encode_rem_len n).length = 1 := by
  rw [encode_rem_len_le n (by omega)]; rfl

theorem encode_rem_len_length_two (n : Nat) (h1 : 128 ≤ n) (h2 : n ≤ 16383) :
    (encode_rem_len n).length = 2 := by
  rw [encode_rem_len_gt n (by omega), encode_rem_len_le (n / 128) (by omega)]
  rfl

theorem encode_rem_len_length_three (n : Nat) (h1 : 16384 ≤ n) (h2 : n ≤ 2097151) :
    (encode_rem_len n).length = 3 := by
  rw [encode_rem_len_gt n (by omega), encode_rem_len_gt (n / 128) (by omega),
      encode_rem_len_le (n / 128 / 128) (by omega)]
  rfl

theorem rem_len_enc_size_eq_length (n : Nat) :
    rem_len_enc_size n = (encode_rem_len n).length := by
  induction n using Nat.strong_induction_on with
  | _ n ih =>
    by_cases h : n > 0x7F
    · rw [rem_len_enc_size, dif_pos h, encode_rem_len_gt n h]
      have hdiv : n >>> 7 < n := by
        simp only [Nat.shiftRight_eq_div_pow]
        exact Nat.div_lt_self (by omega) (by norm_num)
      rw [ih _ hdiv]
      have hsh : n >>> 7 = n / 128 := by
        simp [Nat.shiftRight_eq_div_pow]
      rw [hsh]
      simp only [List.length_cons]
      omega
    · rw [rem_len_enc_size, dif_neg h, encode_rem_len_le n (by omega)]
      rfl

/-! ### The decoder inverts the encoder (on the encoder's uint16_t domain) -/

theorem encode_rem_len_byte_lt (n : Nat) :
    ∀ b ∈ encode_rem_len n, b < 256 := by
  induction n using Nat.strong_induction_on with
  | _ n ih =>
    intro b hb
    by_cases h : n > 0x7F
    · rw [encode_rem_len_gt n h] at hb
      rcases List.mem_cons.mp hb with h1 | h1
      · omega
      · exact ih (n / 128) (Nat.div_lt_self (by omega) (by norm_num)) b h1
    · rw [encode_rem_len_le n (by omega)] at hb
      simp at hb
      omega

theorem decode_rem_len_from_encode (n : Nat) :
    ∀ mult acc, acc < 2 ^ (7 * mult) → acc + n * 2 ^ (7 * mult) < 2 ^ 32 →
    decode_rem_len_from mult acc (encode_rem_len n) = acc + n * 2 ^ (7 * mult) := by
  induction n using Nat.strong_induction_on with
  | _ n ih =>
    intro mult acc hacc hlt
    by_cases h : n > 0x7F
    · rw [encode_rem_len_gt n h]
      have hbyte : (n % 128 + 128) &&& 0x7F = n % 128 := by
        have hmod : n % 128 < 128 := Nat.mod_lt _ (by norm_num)
        have h1 := Nat.and_pow_two_sub_one_eq_mod (n % 128 + 128) 7
        norm_num at h1 ⊢
        omega
      have hsmall : acc + (n % 128) * 2 ^ (7 * mult) < 2 ^ 32 := by
        have h1 : n % 128 ≤ n := Nat.mod_le _ _
        have h2 : (n % 128) * 2 ^ (7 * mult) ≤ n * 2 ^ (7 * mult) :=
          Nat.mul_le_mul_right _ h1
        omega
      have hstep : calc_rem_len_step acc mult (n % 128 + 128)
          = acc + (n % 128) * 2 ^ (7 * mult) := by
        unfold calc_rem_len_step
        rw [hbyte, Nat.shiftLeft_eq]
        have hor := Nat.mul_add_lt_is_or (b := acc) (i := 7 * mult) hacc (n % 128)
        rw [Nat.or_comm, mul_comm (2 ^ (7 * mult)) (n % 128)] at hor
        rw [← hor, Nat.mod_eq_of_lt (by omega)]
        ring
      show decode_rem_len_from (mult + 1) (calc_rem_len_step acc mult (n % 128 + 128)) _ = _
      rw [hstep]
      have hpow : 2 ^ (7 * (mult + 1)) = 2 ^ (7 * mult) * 128 := by
        rw [show 7 * (mult + 1) = 7 * mult + 7 by ring, pow_add]
        norm_num
      have hsplit : n = n % 128 + 128 * (n / 128) := by omega
      have hval : acc + (n % 128) * 2 ^ (7 * mult) + (n / 128) * 2 ^ (7 * (mult + 1))
          = acc + n * 2 ^ (7 * mult) := by
        rw [hpow]
        calc acc + (n % 128) * 2 ^ (7 * mult) + (n / 128) * (2 ^ (7 * mult) * 128)
            = acc + (n % 128 + 128 * (n / 128)) * 2 ^ (7 * mult) := by ring
          _ = acc + n * 2 ^ (7 * mult) := by rw [← hsplit]
      have hrec := ih (n / 128) (Nat.div_lt_self (by omega) (by norm_num)) (mult + 1)
        (acc + (n % 128) * 2 ^ (7 * mult))
      rw [hrec ?_ ?_]
      · exact hval
      · rw [hpow]
        have hmod : n % 128 < 128 := Nat.mod_lt _ (by norm_num)
        have hle := Nat.mul_le_mul_right (2 ^ (7 * mult)) (show n % 128 ≤ 127 by omega)
        nlinarith [Nat.pos_pow_of_pos (7 * mult) (show 0 < 2 by norm_num)]
      · rw [hval]; exact hlt
    · rw [encode_rem_len_le n (by omega)]
      show decode_rem_len_from (mult + 1) (calc_rem_len_step acc mult n) [] = _
      unfold decode_rem_len_from calc_rem_len_step
      have hbyte : n &&& 0x7F = n := by
        have := Nat.and_pow_two_sub_one_eq_mod n 7
        norm_num at this
        omega
      rw [hbyte, Nat.shiftLeft_eq]
      have hor := Nat.mul_add_lt_is_or (b := acc) (i := 7 * mult) hacc n
      rw [Nat.or_comm, mul_comm (2 ^ (7 * mult)) n] at hor
      rw [← hor, Nat.mod_eq_of_lt (by omega)]
      ring

theorem decode_encode_rem_len (n : Nat) (h : n < 2 ^ 32) :
    decode_rem_len (encode_rem_len n) = n := by
  unfold decode_rem_len
  have := decode_rem_len_from_encode n 0 0 (by norm_num) (by simpa using h)
  simpa using this

/-! ## Byte-level encoding primitives (write_u8 / write_u16 / write_string /
write_fixed_header), expressed as the byte sequences they push into the tx
buffer.  A uint16_t parameter truncates its argument with % 65536 and a
uint8_t one with % 256, exactly where the C prototypes do. -/

/-- Bytes produced by write_u16: MSB first, then LSB (num is uint16_t). -/
def write_u16_bytes (num : Nat) : List Nat :=
  [((num % 65536) >>> 8) % 256, (num % 65536) &&& 0xFF]

/-- Bytes produced by write_string: u16 length, then len raw bytes. -/
def write_string_bytes (str : List Nat) (len : Nat) : List Nat :=
  write_u16_bytes len ++ str.take (len % 65536)

/-- Bytes produced by write_fixed_header: the packet-start byte
(type shl 4, or dup shl 3, or (qos and 3) shl 1, or retain) followed by the
variable-length encoding of rem_len.  The rem_len parameter is uint16_t, so
the argument is truncated to 16 bits at the call. -/
def write_fixed_header_bytes (type dup qos retain rem_len : Nat) : List Nat :=
  ((((type % 256) <<< 4) ||| ((if dup % 256 ≠ 0 then 1 else 0) <<< 3)
      ||| (((qos % 256) &&& 0x03) <<< 1) ||| (if retain % 256 ≠ 0 then 1 else 0)) % 256)
    :: encode_rem_len (rem_len % 65536)

/-- C5, as frozen, is false on the code: write_fixed_header receives rem_len
in a uint16_t parameter, so the value 268,435,455 is truncated to 65,535;
the emitted remaining-length field is the 3 bytes FF FF 03 (not 4 bytes) and
it decodes to 65,535, not 268,435,455. -/
theorem varint_roundtrip_u16_truncation :
    write_fixed_header_bytes 3 0 0 0 268435455 = 0x30 :: encode_rem_len 65535
    ∧ encode_rem_len 65535 = [0xFF, 0xFF, 0x03]
    ∧ decode_rem_len [0xFF, 0xFF, 0x03] = 65535
    ∧ (encode_rem_len 65535).length = 3
    ∧ (65535 : Nat) ≠ 268435455 := by
  have he : encode_rem_len 65535 = [0xFF, 0xFF, 0x03] := by
    rw [encode_rem_len_gt 65535 (by norm_num), encode_rem_len_gt 511 (by norm_num),
        encode_rem_len_le 3 (by norm_num)]
  refine ⟨?_, he, by decide, by rw [he]; rfl, by decide⟩
  show write_fixed_header_bytes 3 0 0 0 268435455 = 0x30 :: encode_rem_len 65535
  unfold write_fixed_header_bytes
  first
  | rfl
  | (norm_num; try decide)

/-- C5 amended: on the uint16_t domain 0..65,535 of write_fixed_header, the
remaining-length encoder and the parser's decoder are mutually inverse, and
the encoder emits exactly 1 byte for 0..127, 2 bytes for 128..16,383 and
3 bytes for 16,384..65,535. -/
theorem varint_roundtrip_u16 (n : Nat) (h : n ≤ 65535) :
    decode_rem_len (encode_rem_len n) = n
    ∧ (n ≤ 127 → (encode_rem_len n).length = 1)
    ∧ (128 ≤ n ∧ n ≤ 16383 → (encode_rem_len n).length = 2)
    ∧ (16384 ≤ n → (encode_rem_len n).length = 3) := by
  refine ⟨decode_encode_rem_len n (by omega), ?_, ?_, ?_⟩
  · intro h1; exact encode_rem_len_length_one n h1
  · intro h1; exact encode_rem_len_length_two n h1.1 h1.2
  · intro h1; exact encode_rem_len_length_three n h1 (by omega)

/-- Witness for varint_roundtrip_u16 at the concrete value 300. -/
theorem varint_roundtrip_u16_witness :
    decode_rem_len (encode_rem_len 300) = 300
    ∧ (300 ≤ 127 → (encode_rem_len 300).length = 1)
    ∧ (128 ≤ 300 ∧ 300 ≤ 16383 → (encode_rem_len 300).length = 2)
    ∧ (16384 ≤ 300 → (encode_rem_len 300).length = 3) :=
  varint_roundtrip_u16 300 (by norm_num)

/-! ## Data model: result codes, states, events, requests, buffers, client -/

/-- Result codes used by the client API (subset of gsmr_t). -/
inductive Gsmr
  | gsmOK
  | gsmERR
  | gsmERRMEM
  | gsmCLOSED
deriving DecidableEq, Repr

export Gsmr (gsmOK gsmERR gsmERRMEM gsmCLOSED)

/-- MQTT connection states (gsm_mqtt_state_t; the enum itself lives in the
missing header, the four states are those the .c file uses). -/
inductive ConnState
  | disconnected
  | connecting
  | connected
  | disconnecting
deriving DecidableEq, Repr

/-- Events surfaced to the application (gsm_mqtt_evt_t), with the payload
fields each event carries.  Opaque user arguments are modelled as Nat. -/
inductive MqttEvt
  | evtConnect (status : Nat)
  | evtDisconnect (is_accepted : Bool)
  | evtPublish (arg : Nat) (res : Gsmr)
  | evtSubscribe (arg : Nat) (res : Gsmr)
  | evtUnsubscribe (arg : Nat) (res : Gsmr)
  | evtPublishRecv (topic : List Nat) (payload : List Nat) (dup : Nat) (qos : Nat)
  | evtKeepAlive
deriving DecidableEq, Repr

def MQTT_REQUEST_FLAG_IN_USE : Nat := 0x01
def MQTT_REQUEST_FLAG_PENDING : Nat := 0x02
def MQTT_REQUEST_FLAG_SUBSCRIBE : Nat := 0x04
def MQTT_REQUEST_FLAG_UNSUBSCRIBE : Nat := 0x08

/-- One request slot (gsm_mqtt_request_t).  timeout_start_time is dropped:
nothing in the engine reads it back. -/
structure MqttRequest where
  status : Nat := 0
  packet_id : Nat := 0
  arg : Nat := 0
  expected_sent_len : Nat := 0
deriving DecidableEq, Repr

/-- Modelled from the spec: the ring transmit buffer gsm_buff is not part of
the sources.  Per section 4.1 it is a bounded byte queue: write appends at
most the free space and drops the rest, free is capacity minus fill, skip
drops confirmed bytes from the front, reset discards the content.  The
linear-read view is modelled as the whole unread content (a fully linear
ring); only the length of that view feeds the engine's counters. -/
structure GsmBuff where
  cap : Nat
  content : List Nat
deriving DecidableEq, Repr

def gsm_buff_get_free (b : GsmBuff) : Nat := b.cap - b.content.length

def gsm_buff_write (b : GsmBuff) (data : List Nat) : GsmBuff :=
  { b with content := b.content ++ data.take (gsm_buff_get_free b) }

def gsm_buff_reset (b : GsmBuff) : GsmBuff := { b with content := [] }

def gsm_buff_skip (b : GsmBuff) (n : Nat) : GsmBuff :=
  { b with content := b.content.drop n }

def gsm_buff_get_linear_block_read_length (b : GsmBuff) : Nat := b.content.length

/-- The MQTT client state (gsm_mqtt_client_t), restricted to the fields the
protocol engine reads and writes.  pending_send_len is a ghost mirror of the
bytes handed to gsm_conn_send and not yet confirmed by the SEND callback;
the transport contract bounds the confirmed length by it.  The uint32_t
counters wrap at 2^32 exactly as in the C struct. -/
structure Client where
  conn_state : ConnState := ConnState.disconnected
  last_packet_id : Nat := 0
  requests : List MqttRequest := []
  tx_buff : GsmBuff := { cap := 0, content := [] }
  is_sending : Bool := false
  pending_send_len : Nat := 0
  sent_total : Nat := 0
  written_total : Nat := 0
  poll_time : Nat := 0
deriving DecidableEq, Repr

/-! ## Request helpers and the packet-id generator -/

/-- In-place update of one list element, used for request slots. -/
def list_update {α : Type} : List α → Nat → (α → α) → List α
  | [], _, _ => []
  | a :: l, 0, f => f a :: l
  | a :: l, i + 1, f => a :: list_update l i f

/-- create_packet_id: increment the uint16_t counter, skipping 0. -/
def create_packet_id (last_packet_id : Nat) : Nat :=
  let next := (last_packet_id + 1) % 65536
  if next = 0 then 1 else next

/-- request_create: the first slot without the IN_USE flag gets packet_id,
arg and status reset to IN_USE alone; a full table gives none.  The C
function returns a pointer to the slot; here the updated table comes with
the slot index. -/
def request_create (reqs : List MqttRequest) (packet_id arg : Nat) :
    Option (List MqttRequest × Nat) :=
  match reqs.findIdx? (fun r => r.status &&& MQTT_REQUEST_FLAG_IN_USE == 0) with
  | none => none
  | some i =>
    some (list_update reqs i (fun r =>
      { r with
        status := MQTT_REQUEST_FLAG_IN_USE
        packet_id := packet_id
        arg := arg }), i)

/-- request_get_pending: index of the first slot with the PENDING flag whose
packet id matches (none stands for the C sentinel -1: any pending slot). -/
def request_get_pending (reqs : List MqttRequest) (pkt_id : Option Nat) :
    Option Nat :=
  reqs.findIdx? (fun r =>
    (r.status &&& MQTT_REQUEST_FLAG_PENDING != 0)
    && (match pkt_id with
        | none => true
        | some k => r.packet_id == k))

/-- request_delete: zero the slot status. -/
def request_delete (reqs : List MqttRequest) (i : Nat) : List MqttRequest :=
  list_update reqs i (fun r => { r with status := 0 })

/-- request_set_pending: or the PENDING flag into the slot status. -/
def request_set_pending (reqs : List MqttRequest) (i : Nat) : List MqttRequest :=
  list_update reqs i (fun r => { r with status := r.status ||| MQTT_REQUEST_FLAG_PENDING })

/-! ## Output path: memory check, send_data, acknowledgement packets -/

/-- output_check_enough_memory: total raw bytes (rem_len + 1 start byte +
remaining-length bytes) if the tx buffer has that much free, else 0.  Both
the rem_len parameter and the total are uint16_t, and the free count is
truncated by GSM_U16, hence the % 65536. -/
def output_check_enough_memory (b : GsmBuff) (rem_len : Nat) : Nat :=
  let rl := rem_len % 65536
  let total_len := (rl + 1 + rem_len_enc_size rl) % 65536
  if gsm_buff_get_free b % 65536 ≥ total_len then total_len else 0

/-- send_data: nothing while a send is in flight; otherwise submit the
linear readable region to gsm_conn_send (written_total grows by its length,
is_sending is set) or reset the empty buffer.  The submission itself is the
ghost pending_send_len. -/
def send_data (c : Client) : Client :=
  if c.is_sending then c
  else
    let len := gsm_buff_get_linear_block_read_length c.tx_buff
    if len > 0 then
      { c with written_total := (c.written_total + len) % 2 ^ 32,
               is_sending := true, pending_send_len := len }
    else
      { c with tx_buff := gsm_buff_reset c.tx_buff }

/-- write_ack_rec_rel_resp: on enough memory, fixed header with rem_len 2
and the given qos bits, the two-byte packet id, then send_data. -/
def write_ack_rec_rel_resp (c : Client) (msg_type pkt_id qos : Nat) :
    Client × Bool :=
  if output_check_enough_memory c.tx_buff 2 ≠ 0 then
    let bytes := write_fixed_header_bytes msg_type 0 qos 0 2 ++ write_u16_bytes pkt_id
    let c := { c with tx_buff := gsm_buff_write c.tx_buff bytes }
    (send_data c, true)
  else
    (c, false)

instance : Inhabited MqttRequest := ⟨{}⟩

/-! ## Inbound dispatch (mqtt_process_incoming_message) -/

def MQTT_RCV_GET_PACKET_TYPE (d : Nat) : Nat := (d >>> 0x04) &&& 0x0F
def MQTT_RCV_GET_PACKET_QOS (d : Nat) : Nat := (d >>> 0x01) &&& 0x03
def MQTT_RCV_GET_PACKET_DUP (d : Nat) : Nat := (d >>> 0x03) &&& 0x01

/-- mqtt_process_incoming_message acting on one fully received frame
(header byte, rx buffer contents, remaining length).  It may update the
connection state and the request table, append acknowledgement packets to
the tx buffer, and emit application events.  Message type numbers follow
mqtt_msg_type_t (CONNACK 2, PUBLISH 3, PUBACK 4, PUBREC 5, PUBREL 6,
PUBCOMP 7, SUBACK 9, UNSUBACK 11, PINGRESP 13).  rx_buff reads use getD 0:
the C code reads whatever memory is there; claim C10 covers in-bounds
conditions. -/
def mqtt_process_incoming_message (c : Client) (msg_hdr_byte : Nat)
    (rx_buff : List Nat) (msg_rem_len : Nat) : Client × List MqttEvt :=
  let msg_type := MQTT_RCV_GET_PACKET_TYPE msg_hdr_byte
  if msg_type = 2 then
    let err := rx_buff.getD 1 0
    if c.conn_state = ConnState.connecting then
      let c := if err = 0 then { c with conn_state := ConnState.connected } else c
      (c, [MqttEvt.evtConnect err])
    else
      (c, [])
  else if msg_type = 3 then
    let qos := MQTT_RCV_GET_PACKET_QOS msg_hdr_byte
    let dup := MQTT_RCV_GET_PACKET_DUP msg_hdr_byte
    let topic_len := ((rx_buff.getD 0 0) <<< 8 ||| rx_buff.getD 1 0) % 65536
    let topic := (rx_buff.drop 2).take topic_len
    let pkt_id := if qos > 0 then
        ((rx_buff.getD (2 + topic_len) 0) <<< 8 ||| rx_buff.getD (2 + topic_len + 1) 0) % 65536
      else 0
    let data_off := 2 + topic_len + (if qos > 0 then 2 else 0)
    let data_len := ((2 ^ 32 + msg_rem_len - data_off) % 2 ^ 32) % 65536
    let data := (rx_buff.drop data_off).take data_len
    let c := if qos > 0 then
        (write_ack_rec_rel_resp c (if qos = 1 then 4 else 5) pkt_id qos).1
      else c
    (c, [MqttEvt.evtPublishRecv topic data dup qos])
  else if msg_type = 13 then
    (c, [MqttEvt.evtKeepAlive])
  else if msg_type = 9 ∨ msg_type = 11 ∨ msg_type = 5 ∨ msg_type = 6
      ∨ msg_type = 4 ∨ msg_type = 7 then
    let pkt_id := ((rx_buff.getD 0 0) <<< 8 ||| rx_buff.getD 1 0) % 65536
    if msg_type = 5 then
      ((write_ack_rec_rel_resp c 6 pkt_id 1).1, [])
    else if msg_type = 6 then
      ((write_ack_rec_rel_resp c 7 pkt_id 0).1, [])
    else
      match request_get_pending c.requests (some pkt_id) with
      | some i =>
        let r := c.requests.getD i default
        let res : Gsmr := if rx_buff.getD 2 0 < 3 then gsmOK else gsmERR
        let evt := if msg_type = 9 then MqttEvt.evtSubscribe r.arg res
          else if msg_type = 11 then MqttEvt.evtUnsubscribe r.arg res
          else MqttEvt.evtPublish r.arg gsmOK
        ({ c with requests := request_delete c.requests i }, [evt])
      | none => (c, [])
  else
    (c, [])

/-! ## CONNECT encode (mqtt_connected_cb) -/

def MQTT_FLAG_CONNECT_USERNAME : Nat := 0x80
def MQTT_FLAG_CONNECT_PASSWORD : Nat := 0x40
def MQTT_FLAG_CONNECT_WILL : Nat := 0x04
def MQTT_FLAG_CONNECT_CLEAN_SESSION : Nat := 0x02

/-- Connection info (gsm_mqtt_client_info_t fields the engine reads);
optional strings are the C NULL-able pointers. -/
structure MqttClientInfo where
  id : List Nat := []
  keep_alive : Nat := 0
  user : Option (List Nat) := none
  pass : Option (List Nat) := none
  will_topic : Option (List Nat) := none
  will_message : Option (List Nat) := none
  will_qos : Nat := 0
deriving DecidableEq, Repr

/-- mqtt_connected_cb: on transport-active, build the CONNECT packet.
rem_len is a uint16_t accumulator, whence the % 65536.  The C code tests
flag bits to decide which payload strings to append; those bits are set
exactly by the same conditions used here (the flag constants occupy
disjoint bits).  The byte-by-byte buffer writes of the source are modelled
as one gsm_buff_write of the concatenation: both append exactly the prefix
of the stream that fits the free space. -/
def mqtt_connected_cb (c : Client) (info : MqttClientInfo) : Client :=
  let len_id := info.id.length % 65536
  let hasWill := info.will_topic.isSome && info.will_message.isSome
  let len_will_topic := (info.will_topic.getD []).length % 65536
  let len_will_message := (info.will_message.getD []).length % 65536
  let len_user := (info.user.getD []).length % 65536
  let len_pass := (info.pass.getD []).length % 65536
  let flags := MQTT_FLAG_CONNECT_CLEAN_SESSION
    ||| (if hasWill then
          MQTT_FLAG_CONNECT_WILL ||| ((min (info.will_qos % 256) 2) <<< 0x03)
        else 0)
    ||| (if info.user.isSome then MQTT_FLAG_CONNECT_USERNAME else 0)
    ||| (if info.pass.isSome then MQTT_FLAG_CONNECT_PASSWORD else 0)
  let rem_len := (10 + (len_id + 2)
    + (if hasWill then (len_will_topic + 2) + (len_will_message + 2) else 0)
    + (if info.user.isSome then len_user + 2 else 0)
    + (if info.pass.isSome then len_pass + 2 else 0)) % 65536
  if output_check_enough_memory c.tx_buff rem_len = 0 then c
  else
    let bytes := write_fixed_header_bytes 1 0 0 0 rem_len
      ++ write_string_bytes [0x4D, 0x51, 0x54, 0x54] 4
      ++ [4] ++ [flags % 256]
      ++ write_u16_bytes info.keep_alive
      ++ write_string_bytes info.id len_id
      ++ (if hasWill then
            write_string_bytes (info.will_topic.getD []) len_will_topic
            ++ write_string_bytes (info.will_message.getD []) len_will_message
          else [])
      ++ (if info.user.isSome then write_string_bytes (info.user.getD []) len_user else [])
      ++ (if info.pass.isSome then write_string_bytes (info.pass.getD []) len_pass else [])
    let c := { c with
      tx_buff := gsm_buff_write c.tx_buff bytes
      poll_time := 0
      conn_state := ConnState.connecting }
    send_data c

/-! ## Application API: publish and (un)subscribe -/

/-- The byte stream a publish encode pushes into the tx buffer: fixed
header (type PUBLISH, qos clamped to 2, retain), topic string, packet id
when qos > 0, then the payload bytes. -/
def publish_encode_bytes (topic payload : List Nat)
    (qos_u8 retain pkt_id rem_len len_topic : Nat) : List Nat :=
  write_fixed_header_bytes 3 0 (min qos_u8 2) retain rem_len
  ++ write_string_bytes topic len_topic
  ++ (if qos_u8 > 0 then write_u16_bytes pkt_id else [])
  ++ payload.take (payload.length % 65536)

/-- gsm_mqtt_client_publish.  The payload pointer and its uint16_t length
are modelled as one list whose length stands for payload_len (the C caller
passes the buffer and its length; a NULL payload is the empty list).
rem_len is uint32_t and cannot overflow here (at most 2+65535+2+65535),
but the uint16_t parameters of output_check_enough_memory and
write_fixed_header truncate it to 16 bits.  As in the source, the packet id
counter advances before request allocation, and the request only becomes
pending after the bytes are queued. -/
def gsm_mqtt_client_publish (c : Client) (topic payload : List Nat)
    (qos retain arg : Nat) : Gsmr × Client :=
  let qos_u8 := qos % 256
  let len_topic := topic.length % 65536
  if len_topic = 0 then (gsmERR, c)
  else
    let payload_len := payload.length % 65536
    let rem_len := 2 + len_topic + payload_len + (if qos_u8 > 0 then 2 else 0)
    if c.conn_state ≠ ConnState.connected then (gsmCLOSED, c)
    else
      let raw_len := output_check_enough_memory c.tx_buff rem_len
      if raw_len ≠ 0 then
        let pkt_id := if qos_u8 > 0 then create_packet_id c.last_packet_id else 0
        let c1 := if qos_u8 > 0 then { c with last_packet_id := pkt_id } else c
        match request_create c1.requests pkt_id arg with
        | none => (gsmERRMEM, c1)
        | some (reqs, i) =>
          let reqs := list_update reqs i (fun r =>
            { r with expected_sent_len := (c1.written_total + raw_len) % 2 ^ 32 })
          let bytes := publish_encode_bytes topic payload qos_u8 retain pkt_id rem_len len_topic
          let c2 := { c1 with
            tx_buff := gsm_buff_write c1.tx_buff bytes
            requests := request_set_pending reqs i }
          (gsmOK, send_data c2)
      else
        (gsmERRMEM, c)

/-- sub_unsub: shared body of subscribe and unsubscribe.  Returns the C
1/0 success flag together with the updated client. -/
def sub_unsub (c : Client) (topic : List Nat) (qos arg : Nat) (sub : Bool) :
    Nat × Client :=
  let len_topic := topic.length % 65536
  if len_topic = 0 then (0, c)
  else
    let rem_len := 2 + len_topic + 2 + (if sub then 1 else 0)
    if c.conn_state = ConnState.connected
        ∧ output_check_enough_memory c.tx_buff rem_len ≠ 0 then
      let pkt_id := create_packet_id c.last_packet_id
      let c1 := { c with last_packet_id := pkt_id }
      match request_create c1.requests pkt_id arg with
      | none => (0, c1)
      | some (reqs, i) =>
        let bytes := write_fixed_header_bytes (if sub then 8 else 10) 0 1 0 rem_len
          ++ write_u16_bytes pkt_id
          ++ write_string_bytes topic len_topic
          ++ (if sub then [min (qos % 256) 2] else [])
        let reqs := list_update reqs i (fun r =>
          { r with status := r.status |||
              (if sub then MQTT_REQUEST_FLAG_SUBSCRIBE else MQTT_REQUEST_FLAG_UNSUBSCRIBE) })
        let reqs := request_set_pending reqs i
        let c2 := { c1 with
          tx_buff := gsm_buff_write c1.tx_buff bytes
          requests := reqs }
        (1, send_data c2)
    else
      (0, c)

def gsm_mqtt_client_subscribe (c : Client) (topic : List Nat) (qos arg : Nat) :
    Gsmr × Client :=
  let (r, c) := sub_unsub c topic qos arg true
  (if r = 1 then gsmOK else gsmERR, c)

def gsm_mqtt_client_unsubscribe (c : Client) (topic : List Nat) (arg : Nat) :
    Gsmr × Client :=
  let (r, c) := sub_unsub c topic 0 arg false
  (if r = 1 then gsmOK else gsmERR, c)

/-! ## Transport callbacks: sent, close -/

/-- mqtt_close: ask the transport to close (modelled from the spec as an
always-accepted non-blocking request) and move to DISCONNECTING. -/
def mqtt_close (c : Client) : Client :=
  if c.conn_state ≠ ConnState.disconnected ∧ c.conn_state ≠ ConnState.disconnecting then
    { c with conn_state := ConnState.disconnecting }
  else c

/-- The QoS-0 completion loop of mqtt_data_sent_cb: requests with packet id
0 complete once sent_total reaches their expected_sent_len.  Each round
deletes one pending slot, so the table size bounds the iterations. -/
def qos0_complete_loop : Nat → Client → Client × List MqttEvt
  | 0, c => (c, [])
  | fuel + 1, c =>
    match request_get_pending c.requests (some 0) with
    | none => (c, [])
    | some i =>
      let r := c.requests.getD i default
      if c.sent_total ≥ r.expected_sent_len then
        let c2 := { c with requests := request_delete c.requests i }
        ((qos0_complete_loop fuel c2).1,
         MqttEvt.evtPublish r.arg gsmOK :: (qos0_complete_loop fuel c2).2)
      else
        (c, [])

/-- mqtt_data_sent_cb: clear is_sending, count the confirmed bytes, close
on failure; on success skip the confirmed bytes, complete QoS-0 publishes,
and try to send more. -/
def mqtt_data_sent_cb (c : Client) (sent_len : Nat) (successful : Bool) :
    Client × List MqttEvt :=
  let c := { c with
    is_sending := false
    pending_send_len := 0
    sent_total := (c.sent_total + sent_len) % 2 ^ 32
    poll_time := 0 }
  if !successful then
    (mqtt_close c, [])
  else
    let c := { c with tx_buff := gsm_buff_skip c.tx_buff sent_len }
    let q := qos0_complete_loop c.requests.length c
    (send_data q.1, q.2)

/-- The error event request_send_err_callback emits for a failed request:
the completion event of its kind with result gsmERR. -/
def request_send_err_evt (status arg : Nat) : MqttEvt :=
  if status &&& MQTT_REQUEST_FLAG_SUBSCRIBE ≠ 0 then MqttEvt.evtSubscribe arg gsmERR
  else if status &&& MQTT_REQUEST_FLAG_UNSUBSCRIBE ≠ 0 then MqttEvt.evtUnsubscribe arg gsmERR
  else MqttEvt.evtPublish arg gsmERR

/-- The while loop of mqtt_closed_cb: repeatedly take the first pending
request, delete it and emit its failure event.  Each round clears one
PENDING flag, so the table size bounds the iterations. -/
def close_fanout_loop : Nat → Client → Client × List MqttEvt
  | 0, c => (c, [])
  | fuel + 1, c =>
    match request_get_pending c.requests none with
    | none => (c, [])
    | some i =>
      let r := c.requests.getD i default
      let c2 := { c with requests := request_delete c.requests i }
      ((close_fanout_loop fuel c2).1,
       request_send_err_evt r.status r.arg :: (close_fanout_loop fuel c2).2)

/-- mqtt_closed_cb: set DISCONNECTED, emit DISCONNECT (accepted when the
prior state was CONNECTED or DISCONNECTING), fail every pending request,
zero the table and the counters, reset the tx buffer. -/
def mqtt_closed_cb (c : Client) : Client × List MqttEvt :=
  let state := c.conn_state
  let c := { c with conn_state := ConnState.disconnected }
  let is_accepted := state = ConnState.connected ∨ state = ConnState.disconnecting
  let evDisc := MqttEvt.evtDisconnect (decide is_accepted)
  let cf := close_fanout_loop c.requests.length c
  let c2 := { cf.1 with
    requests := List.replicate cf.1.requests.length {}
    is_sending := false
    pending_send_len := 0
    sent_total := 0
    written_total := 0
    tx_buff := gsm_buff_reset cf.1.tx_buff }
  (c2, evDisc :: cf.2)

def gsm_mqtt_client_is_connected (c : Client) : Bool :=
  c.conn_state = ConnState.connected

/-! ## Claim C1: acknowledgement packet bytes -/

theorem rem_len_enc_size_le (n : Nat) (h : n ≤ 0x7F) : rem_len_enc_size n = 1 := by
  rw [rem_len_enc_size, dif_neg (by omega : ¬ (n > 0x7F))]

theorem encode_rem_len_two : encode_rem_len 2 = [2] :=
  encode_rem_len_le 2 (by norm_num)

theorem rem_len_enc_size_two : rem_len_enc_size 2 = 1 :=
  rem_len_enc_size_le 2 (by norm_num)

/-- send_data never changes the buffer content when there is something in
it (it only submits; bytes leave the buffer on the sent callback). -/
theorem send_data_tx_content (c : Client) (h : c.tx_buff.content ≠ []) :
    (send_data c).tx_buff.content = c.tx_buff.content := by
  unfold send_data
  by_cases hs : c.is_sending
  · simp [hs]
  · simp only [hs, if_false, Bool.false_eq_true]
    have hlen : gsm_buff_get_linear_block_read_length c.tx_buff > 0 := by
      unfold gsm_buff_get_linear_block_read_length
      exact List.length_pos.mpr h
    simp [hlen]

/-- A positive memory check for rem_len 2 means at least 4 free bytes. -/
theorem ack_mem_free (b : GsmBuff) (h : output_check_enough_memory b 2 ≠ 0) :
    gsm_buff_get_free b ≥ 4 := by
  simp [output_check_enough_memory, rem_len_enc_size_two] at h
  omega

/-- A connected client with a free request slot and room to transmit. -/
def ackClient : Client :=
  { conn_state := ConnState.connected
    requests := [{}]
    tx_buff := { cap := 16, content := [] } }

/-- C1 counterexample: for an inbound PUBLISH with qos=2 and packet id 7
(header byte 34, topic a/b, payload XY) the engine responds with PUBREC
bytes 54 02 00 07 — the fixed header carries the inbound qos bits — and not
the claimed 50 02 00 07. -/
theorem pubrec_response_bytes_qos_echo :
    (mqtt_process_incoming_message ackClient 0x34
        [0x00, 0x03, 0x61, 0x2F, 0x62, 0x00, 0x07, 0x58, 0x59] 9).1.tx_buff.content
      = [0x54, 0x02, 0x00, 0x07]
    ∧ [0x54, 0x02, 0x00, 0x07] ≠ ([0x50, 0x02, 0x00, 0x07] : List Nat) := by
  constructor
  · simp [mqtt_process_incoming_message, MQTT_RCV_GET_PACKET_TYPE,
      MQTT_RCV_GET_PACKET_QOS, MQTT_RCV_GET_PACKET_DUP, write_ack_rec_rel_resp,
      output_check_enough_memory, gsm_buff_get_free, gsm_buff_write, send_data,
      gsm_buff_get_linear_block_read_length, write_fixed_header_bytes,
      write_u16_bytes, ackClient, encode_rem_len_two, rem_len_enc_size_two]
    decide
  · decide

/-- C1 amended: every acknowledgement packet the engine emits is a fixed
header with remaining length 2 followed by the two-byte packet id; PUBREL
replies use QoS 1 and PUBCOMP replies QoS 0, but the PUBACK and PUBREC
responses to an inbound PUBLISH echo the inbound QoS bits in the fixed
header: for qos=1 the PUBACK first byte is 42, and for an inbound PUBLISH
with qos=2 and packet id 7 the PUBREC response is 54 02 00 07, followed on
receipt of PUBREL 62 02 00 07 by PUBCOMP 70 02 00 07. -/
theorem ack_packets_rem_len_two_and_qos_echo :
    (∀ (c : Client) (t pkt qos : Nat),
      output_check_enough_memory c.tx_buff 2 ≠ 0 →
      (write_ack_rec_rel_resp c t pkt qos).1.tx_buff.content
        = c.tx_buff.content
          ++ [(((t % 256) <<< 4) ||| (((qos % 256) &&& 0x03) <<< 1)) % 256, 2,
              ((pkt % 65536) >>> 8) % 256, (pkt % 65536) &&& 0xFF])
    ∧ (mqtt_process_incoming_message ackClient 0x32
        [0x00, 0x03, 0x61, 0x2F, 0x62, 0x00, 0x01, 0x68, 0x69] 9).1.tx_buff.content
      = [0x42, 0x02, 0x00, 0x01]
    ∧ (mqtt_process_incoming_message ackClient 0x34
        [0x00, 0x03, 0x61, 0x2F, 0x62, 0x00, 0x07, 0x58, 0x59] 9).1.tx_buff.content
      = [0x54, 0x02, 0x00, 0x07]
    ∧ (mqtt_process_incoming_message ackClient 0x62 [0x00, 0x07] 2).1.tx_buff.content
      = [0x70, 0x02, 0x00, 0x07]
    ∧ (mqtt_process_incoming_message ackClient 0x50 [0x00, 0x07] 2).1.tx_buff.content
      = [0x62, 0x02, 0x00, 0x07] := by
  refine ⟨?_, ?_, ?_, ?_, ?_⟩
  · intro c t pkt qos hmem
    have hfree := ack_mem_free c.tx_buff hmem
    unfold write_ack_rec_rel_resp
    rw [if_pos hmem]
    have hwrite : gsm_buff_write c.tx_buff
        (write_fixed_header_bytes t 0 qos 0 2 ++ write_u16_bytes pkt)
        = { c.tx_buff with content := c.tx_buff.content
            ++ [(((t % 256) <<< 4) ||| (((qos % 256) &&& 0x03) <<< 1)) % 256, 2,
                ((pkt % 65536) >>> 8) % 256, (pkt % 65536) &&& 0xFF] } := by
      unfold gsm_buff_write write_fixed_header_bytes write_u16_bytes
      have h2 : (2 : Nat) % 65536 = 2 := by norm_num
      rw [h2, encode_rem_len_two]
      have hlen : ([(((t % 256) <<< 4) ||| ((if 0 % 256 ≠ 0 then 1 else 0) <<< 3)
          ||| (((qos % 256) &&& 0x03) <<< 1) ||| (if 0 % 256 ≠ 0 then 1 else 0)) % 256, 2]
          ++ [((pkt % 65536) >>> 8) % 256, (pkt % 65536) &&& 0xFF]).length = 4 := rfl
      rw [List.take_of_length_le (by rw [hlen]; unfold gsm_buff_get_free at hfree ⊢; omega)]
      simp
    simp only [hwrite]
    rw [send_data_tx_content _ (by simp)]
  · simp [mqtt_process_incoming_message, MQTT_RCV_GET_PACKET_TYPE,
      MQTT_RCV_GET_PACKET_QOS, MQTT_RCV_GET_PACKET_DUP, write_ack_rec_rel_resp,
      output_check_enough_memory, gsm_buff_get_free, gsm_buff_write, send_data,
      gsm_buff_get_linear_block_read_length, write_fixed_header_bytes,
      write_u16_bytes, ackClient, encode_rem_len_two, rem_len_enc_size_two]
    decide
  · simp [mqtt_process_incoming_message, MQTT_RCV_GET_PACKET_TYPE,
      MQTT_RCV_GET_PACKET_QOS, MQTT_RCV_GET_PACKET_DUP, write_ack_rec_rel_resp,
      output_check_enough_memory, gsm_buff_get_free, gsm_buff_write, send_data,
      gsm_buff_get_linear_block_read_length, write_fixed_header_bytes,
      write_u16_bytes, ackClient, encode_rem_len_two, rem_len_enc_size_two]
    decide
  · simp [mqtt_process_incoming_message, MQTT_RCV_GET_PACKET_TYPE,
      MQTT_RCV_GET_PACKET_QOS, MQTT_RCV_GET_PACKET_DUP, write_ack_rec_rel_resp,
      output_check_enough_memory, gsm_buff_get_free, gsm_buff_write, send_data,
      gsm_buff_get_linear_block_read_length, write_fixed_header_bytes,
      write_u16_bytes, ackClient, encode_rem_len_two, rem_len_enc_size_two]
    decide
  · simp [mqtt_process_incoming_message, MQTT_RCV_GET_PACKET_TYPE,
      MQTT_RCV_GET_PACKET_QOS, MQTT_RCV_GET_PACKET_DUP, write_ack_rec_rel_resp,
      output_check_enough_memory, gsm_buff_get_free, gsm_buff_write, send_data,
      gsm_buff_get_linear_block_read_length, write_fixed_header_bytes,
      write_u16_bytes, ackClient, encode_rem_len_two, rem_len_enc_size_two]
    decide

/-- Witness for ack_packets_rem_len_two_and_qos_echo: the PUBCOMP reply for
packet id 7 on a concrete client. -/
theorem ack_packets_rem_len_two_and_qos_echo_witness :
    (write_ack_rec_rel_resp ackClient 7 7 0).1.tx_buff.content
      = ackClient.tx_buff.content
        ++ [(((7 % 256) <<< 4) ||| (((0 % 256) &&& 0x03) <<< 1)) % 256, 2,
            ((7 % 65536) >>> 8) % 256, (7 % 65536) &&& 0xFF] :=
  ack_packets_rem_len_two_and_qos_echo.1 ackClient 7 7 0 (by
    simp [output_check_enough_memory, gsm_buff_get_free, ackClient, rem_len_enc_size_two])

/-! ## Claim C2: CONNECT packet bytes and CONNACK handling -/

theorem encode_rem_len_fourteen : encode_rem_len 14 = [14] :=
  encode_rem_len_le 14 (by norm_num)

theorem rem_len_enc_size_fourteen : rem_len_enc_size 14 = 1 :=
  rem_len_enc_size_le 14 (by norm_num)

/-- Connection info of the clean-connect scenario: client id c1, keep-alive
60 seconds, clean session, no user, password or will. -/
def infoC1 : MqttClientInfo := { id := [0x63, 0x31], keep_alive := 60 }

/-- The client right after gsm_mqtt_client_connect succeeded: CONNECTING,
zeroed counters, an empty 64-byte tx buffer, an empty request table slot. -/
def connClient : Client :=
  { conn_state := ConnState.connecting
    requests := [{}]
    tx_buff := { cap := 64, content := [] } }

/-- C2 counterexample: the CONNECT packet the engine writes for info c1 has
remaining length 14 (0x0E): 10 bytes of variable header plus the 4-byte
client id string.  The claimed byte string says 0x0C and is not what the
engine emits. -/
theorem connect_bytes_differ_from_claim :
    (mqtt_connected_cb connClient infoC1).tx_buff.content
      = [0x10, 0x0E, 0x00, 0x04, 0x4D, 0x51, 0x54, 0x54, 0x04, 0x02,
         0x00, 0x3C, 0x00, 0x02, 0x63, 0x31]
    ∧ (mqtt_connected_cb connClient infoC1).tx_buff.content
      ≠ [0x10, 0x0C, 0x00, 0x04, 0x4D, 0x51, 0x54, 0x54, 0x04, 0x02,
         0x00, 0x3C, 0x00, 0x02, 0x63, 0x31] := by
  have h : (mqtt_connected_cb connClient infoC1).tx_buff.content
      = [0x10, 0x0E, 0x00, 0x04, 0x4D, 0x51, 0x54, 0x54, 0x04, 0x02,
         0x00, 0x3C, 0x00, 0x02, 0x63, 0x31] := by
    simp [mqtt_connected_cb, infoC1, connClient, output_check_enough_memory,
      gsm_buff_get_free, gsm_buff_write, write_fixed_header_bytes,
      write_string_bytes, write_u16_bytes, send_data,
      gsm_buff_get_linear_block_read_length, MQTT_FLAG_CONNECT_CLEAN_SESSION,
      MQTT_FLAG_CONNECT_WILL, MQTT_FLAG_CONNECT_USERNAME,
      MQTT_FLAG_CONNECT_PASSWORD, encode_rem_len_fourteen,
      rem_len_enc_size_fourteen]
    decide
  exact ⟨h, by rw [h]; decide⟩

/-- C2 amended: for info c1 the CONNECT packet is
10 0E 00 04 4D 51 54 54 04 02 00 3C 00 02 63 31 (remaining length 0x0E, not
0x0C as the spec scenario prints); feeding back CONNACK 20 02 00 00 while
CONNECTING moves the state to CONNECTED and emits event CONNECT with
status 0. -/
theorem connect_bytes_and_connack :
    (mqtt_connected_cb connClient infoC1).tx_buff.content
      = [0x10, 0x0E, 0x00, 0x04, 0x4D, 0x51, 0x54, 0x54, 0x04, 0x02,
         0x00, 0x3C, 0x00, 0x02, 0x63, 0x31]
    ∧ (mqtt_process_incoming_message (mqtt_connected_cb connClient infoC1)
        0x20 [0x00, 0x00] 2).1.conn_state = ConnState.connected
    ∧ (mqtt_process_incoming_message (mqtt_connected_cb connClient infoC1)
        0x20 [0x00, 0x00] 2).2 = [MqttEvt.evtConnect 0] := by
  have h : mqtt_connected_cb connClient infoC1
      = { conn_state := ConnState.connecting
          requests := [{}]
          tx_buff := { cap := 64, content := [0x10, 0x0E, 0x00, 0x04, 0x4D, 0x51,
            0x54, 0x54, 0x04, 0x02, 0x00, 0x3C, 0x00, 0x02, 0x63, 0x31] }
          is_sending := true
          pending_send_len := 16
          written_total := 16 } := by
    simp [mqtt_connected_cb, infoC1, connClient, output_check_enough_memory,
      gsm_buff_get_free, gsm_buff_write, write_fixed_header_bytes,
      write_string_bytes, write_u16_bytes, send_data,
      gsm_buff_get_linear_block_read_length, MQTT_FLAG_CONNECT_CLEAN_SESSION,
      MQTT_FLAG_CONNECT_WILL, MQTT_FLAG_CONNECT_USERNAME,
      MQTT_FLAG_CONNECT_PASSWORD, encode_rem_len_fourteen,
      rem_len_enc_size_fourteen]
    decide
  rw [h]
  refine ⟨rfl, ?_, ?_⟩ <;> decide

/-! ## Claim C3: close fanout order and final state -/

/-- A connected client with two pending QoS-1 publishes (packet ids 1 and 2)
and one pending subscribe (packet id 3) in an eight-slot table.
Status 3 = IN_USE + PENDING, status 7 adds the SUBSCRIBE flag. -/
def closeClient : Client :=
  { conn_state := ConnState.connected
    last_packet_id := 3
    requests := [
      { status := 3, packet_id := 1, arg := 11, expected_sent_len := 9 },
      { status := 3, packet_id := 2, arg := 12, expected_sent_len := 18 },
      { status := 7, packet_id := 3, arg := 13 },
      {}, {}, {}, {}, {}]
    tx_buff := { cap := 256, content := [] } }

/-- C3 counterexample: on transport close the engine emits DISCONNECT
first and the three failure events after it, not the failure events first
as claimed. -/
theorem close_fanout_disconnect_first :
    (mqtt_closed_cb closeClient).2
      = [MqttEvt.evtDisconnect true, MqttEvt.evtPublish 11 gsmERR,
         MqttEvt.evtPublish 12 gsmERR, MqttEvt.evtSubscribe 13 gsmERR]
    ∧ (mqtt_closed_cb closeClient).2
      ≠ [MqttEvt.evtPublish 11 gsmERR, MqttEvt.evtPublish 12 gsmERR,
         MqttEvt.evtSubscribe 13 gsmERR, MqttEvt.evtDisconnect true] := by
  constructor <;> decide

/-- C3 amended: with two QoS-1 publishes (ids 1, 2) and one subscribe
(id 3) pending, transport close emits DISCONNECT with is_accepted = true
first, then the three failure events PUBLISH ERR, PUBLISH ERR,
SUBSCRIBE ERR in packet-id order; afterwards the state is DISCONNECTED and
the request table is empty. -/
theorem close_fanout_events_and_state :
    (mqtt_closed_cb closeClient).2
      = [MqttEvt.evtDisconnect true, MqttEvt.evtPublish 11 gsmERR,
         MqttEvt.evtPublish 12 gsmERR, MqttEvt.evtSubscribe 13 gsmERR]
    ∧ (mqtt_closed_cb closeClient).1.conn_state = ConnState.disconnected
    ∧ (mqtt_closed_cb closeClient).1.requests = List.replicate 8 {}
    ∧ (mqtt_closed_cb closeClient).1.tx_buff.content = []
    ∧ (mqtt_closed_cb closeClient).1.sent_total = 0
    ∧ (mqtt_closed_cb closeClient).1.written_total = 0 := by
  refine ⟨?_, ?_, ?_, ?_, ?_, ?_⟩ <;> decide

/-! ## Claim C6: the packet-id generator -/

theorem encode_rem_len_five : encode_rem_len 5 = [5] :=
  encode_rem_len_le 5 (by norm_num)

theorem rem_len_enc_size_five : rem_len_enc_size 5 = 1 :=
  rem_len_enc_size_le 5 (by norm_num)

/-- Packet ids of the request slots whose PENDING flag is set. -/
def pending_packet_ids (c : Client) : List Nat :=
  (c.requests.filter
    (fun r => r.status &&& MQTT_REQUEST_FLAG_PENDING != 0)).map
    (fun r => r.packet_id)

/-- A connected client whose uint16_t id counter sits at 0xFFFF while the
request created with the very first generated id (1) is still pending:
the state the generator reaches after 65535 allocations. -/
def wrapClient : Client :=
  { conn_state := ConnState.connected
    last_packet_id := 0xFFFF
    requests := [{ status := 3, packet_id := 1, arg := 0 }, {}]
    tx_buff := { cap := 64, content := [] } }

/-- C6 counterexample: with the counter at 0xFFFF and the request that
received id 1 still pending, the next QoS-1 publish succeeds and is
assigned packet id 1 again — two concurrently pending requests share a
packet id, so the as-stated no-repeat-while-pending property fails. -/
theorem packet_id_wrap_collision :
    (gsm_mqtt_client_publish wrapClient [0x61] [] 1 0 7).1 = gsmOK
    ∧ pending_packet_ids (gsm_mqtt_client_publish wrapClient [0x61] [] 1 0 7).2
      = [1, 1]
    ∧ ¬ List.Pairwise (fun a b => a ≠ b)
        (pending_packet_ids (gsm_mqtt_client_publish wrapClient [0x61] [] 1 0 7).2) := by
  refine ⟨?_, ?_, ?_⟩
  · simp [gsm_mqtt_client_publish, wrapClient, output_check_enough_memory,
      gsm_buff_get_free, gsm_buff_write, send_data,
      gsm_buff_get_linear_block_read_length, create_packet_id, request_create,
      request_set_pending, request_delete, list_update, publish_encode_bytes,
      write_fixed_header_bytes, write_string_bytes, write_u16_bytes,
      encode_rem_len_five, rem_len_enc_size_five]
    decide
  · simp [gsm_mqtt_client_publish, wrapClient, output_check_enough_memory,
      gsm_buff_get_free, gsm_buff_write, send_data,
      gsm_buff_get_linear_block_read_length, create_packet_id, request_create,
      request_set_pending, request_delete, list_update, publish_encode_bytes,
      write_fixed_header_bytes, write_string_bytes, write_u16_bytes,
      encode_rem_len_five, rem_len_enc_size_five, pending_packet_ids]
    decide
  · simp [gsm_mqtt_client_publish, wrapClient, output_check_enough_memory,
      gsm_buff_get_free, gsm_buff_write, send_data,
      gsm_buff_get_linear_block_read_length, create_packet_id, request_create,
      request_set_pending, request_delete, list_update, publish_encode_bytes,
      write_fixed_header_bytes, write_string_bytes, write_u16_bytes,
      encode_rem_len_five, rem_len_enc_size_five, pending_packet_ids]
    decide

/-- The id sequence the generator produces from a starting counter value:
element k is the id returned by the (k+1)-th call to create_packet_id. -/
def packet_id_seq (s : Nat) : Nat → Nat
  | 0 => create_packet_id s
  | k + 1 => create_packet_id (packet_id_seq s k)

theorem create_packet_id_closed (x : Nat) (h : x ≤ 65535) :
    create_packet_id x = if x = 65535 then 1 else x + 1 := by
  unfold create_packet_id
  rcases Nat.lt_or_ge x 65535 with h1 | h1
  · rw [Nat.mod_eq_of_lt (by omega)]
    rw [if_neg (by omega), if_neg (by omega)]
  · have hx : x = 65535 := by omega
    subst hx
    decide

theorem packet_id_seq_closed (s : Nat) (hs : s ≤ 65535) (k : Nat) :
    packet_id_seq s k = (s + k) % 65535 + 1 := by
  induction k with
  | zero =>
    show create_packet_id s = (s + 0) % 65535 + 1
    rw [create_packet_id_closed s hs]
    rcases Nat.lt_or_ge s 65535 with h1 | h1
    · rw [if_neg (by omega), Nat.mod_eq_of_lt (by omega)]
    · have hx : s = 65535 := by omega
      subst hx
      decide
  | succ k ih =>
    show create_packet_id (packet_id_seq s k) = (s + (k + 1)) % 65535 + 1
    rw [ih]
    have hlt : (s + k) % 65535 < 65535 := Nat.mod_lt _ (by norm_num)
    rw [create_packet_id_closed _ (by omega)]
    rcases Nat.lt_or_ge ((s + k) % 65535) 65534 with h1 | h1
    · rw [if_neg (by omega)]
      omega
    · have hx : (s + k) % 65535 = 65534 := by omega
      rw [if_pos (by omega)]
      omega

/-- C6 amended: the generator never returns 0 and wraps 0xFFFF to 1; the
no-repeat-while-pending property holds only within a window: among any
run of at most 65535 consecutively generated ids (from any uint16_t
counter value) all ids are pairwise distinct, so a pending id is not
reissued until 65535 further ids have been generated.  (The counterexample
shows the 65536th id collides with a still-pending first id.) -/
theorem packet_id_generator_window :
    (∀ last, create_packet_id last ≠ 0)
    ∧ create_packet_id 0xFFFF = 1
    ∧ (∀ s i j, s ≤ 65535 → i < j → j - i < 65535 →
        packet_id_seq s i ≠ packet_id_seq s j) := by
  refine ⟨?_, by decide, ?_⟩
  · intro last
    unfold create_packet_id
    by_cases h : (last + 1) % 65536 = 0
    · simp [h]
    · simp only [h, if_false]
      exact h
  · intro s i j hs hij hwin
    rw [packet_id_seq_closed s hs i, packet_id_seq_closed s hs j]
    intro heq
    have heq2 : (s + i) % 65535 = (s + j) % 65535 := by omega
    omega

/-- Witness for packet_id_generator_window at concrete inputs. -/
theorem packet_id_generator_window_witness :
    create_packet_id 7 ≠ 0 ∧ packet_id_seq 0 0 ≠ packet_id_seq 0 1 :=
  ⟨packet_id_generator_window.1 7,
   packet_id_generator_window.2.2 0 0 1 (by norm_num) (by norm_num) (by norm_num)⟩

/-! ## Claim C9: publish result taxonomy -/

/-- The memory pre-check a publish performs, on the rem_len it computes. -/
def publish_mem_check (c : Client) (topic payload : List Nat) (qos : Nat) : Nat :=
  output_check_enough_memory c.tx_buff
    (2 + topic.length % 65536 + payload.length % 65536
      + (if qos % 256 > 0 then 2 else 0))

/-- The request table has no free slot. -/
def request_table_full (reqs : List MqttRequest) : Prop :=
  reqs.findIdx? (fun r => r.status &&& MQTT_REQUEST_FLAG_IN_USE == 0) = none

/-- A connected client with room everywhere. -/
def c9Client : Client :=
  { conn_state := ConnState.connected
    requests := [{}]
    tx_buff := { cap := 64, content := [] } }

/-- C9 counterexample: a publish with an empty topic returns the generic
error code, which is none of OK, CLOSED, OUT-OF-MEMORY — and it does so
even though the client is connected. -/
theorem publish_empty_topic_generic_err :
    (gsm_mqtt_client_publish c9Client [] [] 0 0 0).1 = gsmERR
    ∧ gsmERR ≠ gsmOK ∧ gsmERR ≠ gsmCLOSED ∧ gsmERR ≠ gsmERRMEM := by
  refine ⟨by decide, by decide, by decide, by decide⟩

/-- C9 amended: for a nonempty topic, publish returns exactly one of OK,
CLOSED, OUT-OF-MEMORY: CLOSED exactly when the client is not currently
connected; OUT-OF-MEMORY exactly when it is connected and the tx-buffer
memory pre-check fails or the request table is full; OK otherwise.  A call
with an empty topic returns the generic error instead. -/
theorem publish_result_taxonomy (c : Client) (topic payload : List Nat)
    (qos retain arg : Nat) (htopic : topic.length % 65536 ≠ 0) :
    ((gsm_mqtt_client_publish c topic payload qos retain arg).1 = gsmCLOSED
      ↔ c.conn_state ≠ ConnState.connected)
    ∧ ((gsm_mqtt_client_publish c topic payload qos retain arg).1 = gsmERRMEM
      ↔ c.conn_state = ConnState.connected
        ∧ (publish_mem_check c topic payload qos = 0 ∨ request_table_full c.requests))
    ∧ ((gsm_mqtt_client_publish c topic payload qos retain arg).1 = gsmOK
      ↔ c.conn_state = ConnState.connected
        ∧ publish_mem_check c topic payload qos ≠ 0
        ∧ ¬ request_table_full c.requests)
    ∧ ((gsm_mqtt_client_publish c topic payload qos retain arg).1 = gsmOK
      ∨ (gsm_mqtt_client_publish c topic payload qos retain arg).1 = gsmCLOSED
      ∨ (gsm_mqtt_client_publish c topic payload qos retain arg).1 = gsmERRMEM) := by
  by_cases hconn : c.conn_state = ConnState.connected
  · by_cases hmem : publish_mem_check c topic payload qos = 0
    · have hres : (gsm_mqtt_client_publish c topic payload qos retain arg).1 = gsmERRMEM := by
        simp only [gsm_mqtt_client_publish]
        rw [if_neg htopic, if_neg (by simp [hconn])]
        unfold publish_mem_check at hmem
        simp [hmem]
      rw [hres]
      simp [hconn, hmem]
    · rcases hfind : c.requests.findIdx?
          (fun r => r.status &&& MQTT_REQUEST_FLAG_IN_USE == 0) with _ | i
      · have hfull : request_table_full c.requests := hfind
        have hres : (gsm_mqtt_client_publish c topic payload qos retain arg).1 = gsmERRMEM := by
          simp only [gsm_mqtt_client_publish]
          rw [if_neg htopic, if_neg (by simp [hconn])]
          unfold publish_mem_check at hmem
          by_cases hq : qos % 256 > 0 <;>
            (simp [hq] at hmem ⊢; simp [hmem, request_create, hfind])
        rw [hres]
        simp [hconn, hfull]
      · have hnfull : ¬ request_table_full c.requests := by
          unfold request_table_full
          rw [hfind]
          simp
        have hres : (gsm_mqtt_client_publish c topic payload qos retain arg).1 = gsmOK := by
          simp only [gsm_mqtt_client_publish]
          rw [if_neg htopic, if_neg (by simp [hconn])]
          unfold publish_mem_check at hmem
          by_cases hq : qos % 256 > 0 <;>
            (simp [hq] at hmem ⊢; simp [hmem, request_create, hfind])
        rw [hres]
        simp [hconn, hmem, hnfull]
  · have hres : (gsm_mqtt_client_publish c topic payload qos retain arg).1 = gsmCLOSED := by
      simp only [gsm_mqtt_client_publish]
      rw [if_neg htopic, if_pos (by simp [hconn])]
    rw [hres]
    simp [hconn]

/-- Witness for publish_result_taxonomy on a concrete connected client. -/
theorem publish_result_taxonomy_witness :
    ((gsm_mqtt_client_publish c9Client [0x61] [] 0 0 0).1 = gsmCLOSED
      ↔ c9Client.conn_state ≠ ConnState.connected)
    ∧ ((gsm_mqtt_client_publish c9Client [0x61] [] 0 0 0).1 = gsmERRMEM
      ↔ c9Client.conn_state = ConnState.connected
        ∧ (publish_mem_check c9Client [0x61] [] 0 = 0
            ∨ request_table_full c9Client.requests))
    ∧ ((gsm_mqtt_client_publish c9Client [0x61] [] 0 0 0).1 = gsmOK
      ↔ c9Client.conn_state = ConnState.connected
        ∧ publish_mem_check c9Client [0x61] [] 0 ≠ 0
        ∧ ¬ request_table_full c9Client.requests)
    ∧ ((gsm_mqtt_client_publish c9Client [0x61] [] 0 0 0).1 = gsmOK
      ∨ (gsm_mqtt_client_publish c9Client [0x61] [] 0 0 0).1 = gsmCLOSED
      ∨ (gsm_mqtt_client_publish c9Client [0x61] [] 0 0 0).1 = gsmERRMEM) :=
  publish_result_taxonomy c9Client [0x61] [] 0 0 0 (by decide)

/-! ## Claim C7: encode atomicity and the uint16_t rem_len truncation -/

theorem encode_rem_len_zero : encode_rem_len 0 = [0] :=
  encode_rem_len_le 0 (by norm_num)

theorem rem_len_enc_size_zero : rem_len_enc_size 0 = 1 :=
  rem_len_enc_size_le 0 (by norm_num)

def hugeTopic : List Nat := List.replicate 65535 0x61
def hugePayload : List Nat := List.replicate 65535 0x62

/-- A connected client whose empty tx buffer has 4 free bytes. -/
def tinyBufClient : Client :=
  { conn_state := ConnState.connected
    requests := [{}]
    tx_buff := { cap := 4, content := [] } }

theorem hugeTopic_length : hugeTopic.length = 65535 := by
  unfold hugeTopic
  exact List.length_replicate 65535 0x61

theorem hugePayload_length : hugePayload.length = 65535 := by
  unfold hugePayload
  exact List.length_replicate 65535 0x62

theorem hugeTopic_take : hugeTopic.take 65535 = hugeTopic :=
  List.take_of_length_le (by rw [hugeTopic_length])

theorem hugePayload_take : hugePayload.take 65535 = hugePayload :=
  List.take_of_length_le (by rw [hugePayload_length])

/-- send_data never changes the buffer content: it either submits the
readable region (leaving it in place until the sent callback) or resets an
already empty buffer. -/
theorem send_data_content (c : Client) :
    (send_data c).tx_buff.content = c.tx_buff.content := by
  unfold send_data gsm_buff_reset gsm_buff_get_linear_block_read_length
  by_cases hs : c.is_sending
  · simp [hs]
  · by_cases h0 : c.tx_buff.content.length > 0
    · simp [hs, h0]
    · have hnil : c.tx_buff.content = [] := List.length_eq_zero.mp (by omega)
      simp [hs, h0, hnil]

/-- Symbolic evaluation of the publish success branch: result code. -/
theorem publish_ok_res (c : Client) (topic payload : List Nat)
    (qos retain arg : Nat)
    (htopic : topic.length % 65536 ≠ 0)
    (hconn : c.conn_state = ConnState.connected)
    (hmem : publish_mem_check c topic payload qos ≠ 0)
    (i : Nat)
    (hfind : c.requests.findIdx?
      (fun r => r.status &&& MQTT_REQUEST_FLAG_IN_USE == 0) = some i) :
    (gsm_mqtt_client_publish c topic payload qos retain arg).1 = gsmOK := by
  simp only [gsm_mqtt_client_publish]
  rw [if_neg htopic, if_neg (by simp [hconn])]
  unfold publish_mem_check at hmem
  by_cases hq : qos % 256 > 0 <;>
    (simp [hq] at hmem ⊢; simp [hmem, request_create, hfind])

/-- Symbolic evaluation of the publish success branch: the tx buffer
content is the old content plus as much of the encoded packet as fits. -/
theorem publish_ok_content (c : Client) (topic payload : List Nat)
    (qos retain arg : Nat)
    (htopic : topic.length % 65536 ≠ 0)
    (hconn : c.conn_state = ConnState.connected)
    (hmem : publish_mem_check c topic payload qos ≠ 0)
    (i : Nat)
    (hfind : c.requests.findIdx?
      (fun r => r.status &&& MQTT_REQUEST_FLAG_IN_USE == 0) = some i) :
    (gsm_mqtt_client_publish c topic payload qos retain arg).2.tx_buff.content
      = c.tx_buff.content
        ++ (publish_encode_bytes topic payload (qos % 256) retain
            (if qos % 256 > 0 then create_packet_id c.last_packet_id else 0)
            (2 + topic.length % 65536 + payload.length % 65536
              + (if qos % 256 > 0 then 2 else 0))
            (topic.length % 65536)).take (gsm_buff_get_free c.tx_buff) := by
  simp only [gsm_mqtt_client_publish]
  rw [if_neg htopic, if_neg (by simp [hconn])]
  unfold publish_mem_check at hmem
  by_cases hq : qos % 256 > 0 <;>
    (simp [hq] at hmem ⊢;
     simp [hmem, request_create, hfind, send_data_content, gsm_buff_write])

theorem hugeTopic_len_mod : hugeTopic.length % 65536 = 65535 := by
  rw [hugeTopic_length]

theorem hugePayload_len_mod : hugePayload.length % 65536 = 65535 := by
  rw [hugePayload_length]

theorem tiny_mem_check :
    publish_mem_check tinyBufClient hugeTopic hugePayload 0 = 2 := by
  simp [publish_mem_check, tinyBufClient, hugeTopic_length, hugePayload_length,
    output_check_enough_memory, gsm_buff_get_free, rem_len_enc_size_zero]

/-- C7, evaluated at the failing input: a publish of a 65535-byte topic and
a 65535-byte payload computes rem_len = 131072, which the uint16_t
parameters truncate to 0, so the memory pre-check approves 2 raw bytes
against a 4-byte buffer and the call returns OK — yet the encoded stream is
131074 bytes long and only its first 4 bytes are in the tx buffer: a
partially encoded MQTT packet after a successful return, refuting the
atomicity invariant the claim states for all accepted topic and payload
lengths. -/
theorem publish_truncation_partial_packet :
    (gsm_mqtt_client_publish tinyBufClient hugeTopic hugePayload 0 0 0).1 = gsmOK
    ∧ publish_mem_check tinyBufClient hugeTopic hugePayload 0 = 2
    ∧ (gsm_mqtt_client_publish tinyBufClient hugeTopic hugePayload 0 0 0).2.tx_buff.content
      = [0x30, 0x00, 0xFF, 0xFF]
    ∧ (publish_encode_bytes hugeTopic hugePayload 0 0 0 (2 + 65535 + 65535) 65535).length
      = 131074
    ∧ ([0x30, 0x00, 0xFF, 0xFF] : List Nat).length < 131074 := by
  have htopic : hugeTopic.length % 65536 ≠ 0 := by rw [hugeTopic_len_mod]; decide
  have hmem : publish_mem_check tinyBufClient hugeTopic hugePayload 0 ≠ 0 := by
    rw [tiny_mem_check]; decide
  have hfind : tinyBufClient.requests.findIdx?
      (fun r => r.status &&& MQTT_REQUEST_FLAG_IN_USE == 0) = some 0 := by decide
  refine ⟨publish_ok_res tinyBufClient hugeTopic hugePayload 0 0 0 htopic rfl hmem 0 hfind,
    tiny_mem_check, ?_, ?_, by decide⟩
  · rw [publish_ok_content tinyBufClient hugeTopic hugePayload 0 0 0 htopic rfl hmem 0 hfind]
    rw [hugeTopic_len_mod, hugePayload_len_mod]
    simp only [publish_encode_bytes, write_fixed_header_bytes, write_string_bytes,
      write_u16_bytes]
    norm_num [encode_rem_len_zero, hugeTopic_take, hugePayload_take,
      tinyBufClient, gsm_buff_get_free]
    decide
  · rw [publish_encode_bytes, write_fixed_header_bytes, write_string_bytes,
      write_u16_bytes]
    rw [hugePayload_length]
    rw [show (2 + 65535 + 65535 : Nat) % 65536 = 0 from by norm_num]
    rw [encode_rem_len_zero]
    rw [show (65535 : Nat) % 65536 = 65535 from by norm_num]
    rw [hugePayload_take, hugeTopic_take]
    rw [if_neg (by decide : ¬ ((0:Nat) > 0))]
    simp only [List.length_append, List.append_nil]
    rw [hugeTopic_length, hugePayload_length]
    decide

/-! ## Claim C10: dispatcher read offsets -/

/-- The rx-buffer indices mqtt_process_incoming_message reads for one
dispatched frame, transcribed from the source: rx[1] for CONNACK; rx[0..1]
(the packet id) for PUBACK, PUBREC, PUBREL, PUBCOMP; additionally rx[2]
(the return code) for SUBACK and UNSUBACK; for PUBLISH the two
topic-length bytes, the topic region, the packet-id pair when qos > 0 and
the payload region up to the remaining length. -/
def dispatch_read_idxs (msg_hdr_byte : Nat) (rx_buff : List Nat)
    (msg_rem_len : Nat) : List Nat :=
  let t := MQTT_RCV_GET_PACKET_TYPE msg_hdr_byte
  if t = 2 then [1]
  else if t = 3 then
    let qos := MQTT_RCV_GET_PACKET_QOS msg_hdr_byte
    let topic_len := ((rx_buff.getD 0 0) <<< 8 ||| rx_buff.getD 1 0) % 65536
    let data_off := 2 + topic_len + (if qos > 0 then 2 else 0)
    [0, 1] ++ (List.range topic_len).map (fun j => 2 + j)
      ++ (if qos > 0 then [2 + topic_len, 3 + topic_len] else [])
      ++ (List.range (msg_rem_len - data_off)).map (fun j => data_off + j)
  else if t = 9 ∨ t = 11 then [0, 1, 2]
  else if t = 5 ∨ t = 6 ∨ t = 4 ∨ t = 7 then [0, 1]
  else []

/-- The per-type precondition the claim states: remaining length at least
2 for CONNACK and the PUB acks, at least 3 for SUBACK/UNSUBACK, and at
least 2 + topic_len (+2 when qos > 0) for PUBLISH. -/
def dispatch_read_pre (msg_hdr_byte : Nat) (rx_buff : List Nat)
    (msg_rem_len : Nat) : Prop :=
  let t := MQTT_RCV_GET_PACKET_TYPE msg_hdr_byte
  if t = 2 ∨ t = 5 ∨ t = 6 ∨ t = 4 ∨ t = 7 then 2 ≤ msg_rem_len
  else if t = 9 ∨ t = 11 then 3 ≤ msg_rem_len
  else if t = 3 then
    let qos := MQTT_RCV_GET_PACKET_QOS msg_hdr_byte
    let topic_len := ((rx_buff.getD 0 0) <<< 8 ||| rx_buff.getD 1 0) % 65536
    2 + topic_len + (if qos > 0 then 2 else 0) ≤ msg_rem_len
  else True

/-- C10: the dispatcher indexes the rx buffer at fixed offsets without
consulting the remaining length; under the stated per-type preconditions
every index it reads lies inside the dispatched frame. -/
theorem dispatch_reads_in_frame (hdr : Nat) (rx : List Nat) (rem : Nat)
    (hpre : dispatch_read_pre hdr rx rem) :
    ∀ i ∈ dispatch_read_idxs hdr rx rem, i < rem := by
  intro i hi
  unfold dispatch_read_pre at hpre
  unfold dispatch_read_idxs at hi
  set t := MQTT_RCV_GET_PACKET_TYPE hdr with ht
  by_cases h2 : t = 2
  · rw [if_pos (by left; exact h2)] at hpre
    rw [if_pos h2] at hi
    simp at hi
    omega
  · by_cases h3 : t = 3
    · have hne : ¬ (t = 2 ∨ t = 5 ∨ t = 6 ∨ t = 4 ∨ t = 7) := by omega
      have hne2 : ¬ (t = 9 ∨ t = 11) := by omega
      rw [if_neg hne, if_neg hne2, if_pos h3] at hpre
      rw [if_neg h2, if_pos h3] at hi
      set qos := MQTT_RCV_GET_PACKET_QOS hdr with hq
      set topic_len := ((rx.getD 0 0) <<< 8 ||| rx.getD 1 0) % 65536 with htl
      simp only [] at hpre
      by_cases hqos : qos > 0
      · simp only [if_pos hqos] at hpre hi
        simp only [List.mem_append] at hi
        rcases hi with ((h | h) | h) | h
        · simp only [List.mem_cons, List.not_mem_nil, or_false] at h
          omega
        · obtain ⟨j, hj, hje⟩ := List.mem_map.mp h
          have hj2 := List.mem_range.mp hj
          omega
        · simp only [List.mem_cons, List.not_mem_nil, or_false] at h
          omega
        · obtain ⟨j, hj, hje⟩ := List.mem_map.mp h
          have hj2 := List.mem_range.mp hj
          omega
      · simp only [if_neg hqos] at hpre hi
        simp only [List.mem_append] at hi
        rcases hi with ((h | h) | h) | h
        · simp only [List.mem_cons, List.not_mem_nil, or_false] at h
          omega
        · obtain ⟨j, hj, hje⟩ := List.mem_map.mp h
          have hj2 := List.mem_range.mp hj
          omega
        · exact absurd h (List.not_mem_nil i)
        · obtain ⟨j, hj, hje⟩ := List.mem_map.mp h
          have hj2 := List.mem_range.mp hj
          omega
    · by_cases h9 : t = 9 ∨ t = 11
      · have hne : ¬ (t = 2 ∨ t = 5 ∨ t = 6 ∨ t = 4 ∨ t = 7) := by omega
        rw [if_neg hne, if_pos h9] at hpre
        rw [if_neg h2, if_neg h3, if_pos h9] at hi
        simp at hi
        omega
      · by_cases h5 : t = 5 ∨ t = 6 ∨ t = 4 ∨ t = 7
        · rw [if_pos (by omega)] at hpre
          rw [if_neg h2, if_neg h3, if_neg h9, if_pos h5] at hi
          simp at hi
          omega
        · rw [if_neg h2, if_neg h3, if_neg h9, if_neg h5] at hi
          simp at hi

/-- Witness for dispatch_reads_in_frame: a CONNACK frame of remaining
length 2 satisfies the precondition, and its read index 1 is inside the
frame. -/
theorem dispatch_reads_in_frame_witness :
    dispatch_read_pre 0x20 [0x00, 0x00] 2
    ∧ 1 ∈ dispatch_read_idxs 0x20 [0x00, 0x00] 2
    ∧ 1 < 2 := by
  have hpre : dispatch_read_pre 0x20 [0x00, 0x00] 2 := by
    unfold dispatch_read_pre
    rw [show MQTT_RCV_GET_PACKET_TYPE 0x20 = 2 from by decide]
    norm_num
  have hmem : 1 ∈ dispatch_read_idxs 0x20 [0x00, 0x00] 2 := by
    unfold dispatch_read_idxs
    rw [show MQTT_RCV_GET_PACKET_TYPE 0x20 = 2 from by decide]
    norm_num
  exact ⟨hpre, hmem, dispatch_reads_in_frame 0x20 [0x00, 0x00] 2 hpre 1 hmem⟩

/-! ## Claim C8: the cumulative byte counters -/

/-- Transport-facing events that drive the counters: an encode (any API or
internal path that appends bytes to the tx buffer and then calls
send_data), the SEND completion callback, and transport close. -/
inductive TransportEv
  | evEnc (bs : List Nat)
  | evSent (len : Nat) (ok : Bool)
  | evClose
deriving DecidableEq, Repr

def client_step (c : Client) : TransportEv → Client
  | TransportEv.evEnc bs => send_data { c with tx_buff := gsm_buff_write c.tx_buff bs }
  | TransportEv.evSent len ok => (mqtt_data_sent_cb c len ok).1
  | TransportEv.evClose => (mqtt_closed_cb c).1

def client_run (c : Client) : List TransportEv → Client
  | [] => c
  | e :: es => client_run (client_step c e) es

/-- The transport contract plus the no-overflow side condition for one
event: a SEND callback arrives only while a send is outstanding and
confirms at most the submitted bytes; an event that may submit bytes keeps
the cumulative uint32_t written count below 2^32. -/
def ev_ok (c : Client) : TransportEv → Prop
  | TransportEv.evEnc bs =>
      c.written_total + c.tx_buff.content.length + bs.length < 2 ^ 32
  | TransportEv.evSent len _ =>
      c.is_sending = true ∧ len ≤ c.pending_send_len
      ∧ c.written_total + c.tx_buff.content.length < 2 ^ 32
  | TransportEv.evClose => True

def trace_ok (c : Client) : List TransportEv → Prop
  | [] => True
  | e :: es => ev_ok c e ∧ trace_ok (client_step c e) es

/-- A fresh client from gsm_mqtt_client_new: everything zeroed, an n-byte
tx buffer and an m-slot request table. -/
def client_new (n m : Nat) : Client :=
  { conn_state := ConnState.disconnected
    requests := List.replicate m {}
    tx_buff := { cap := n, content := [] } }

/-- The inductive counter invariant: the confirmed bytes plus the
outstanding submission never exceed the submitted total. -/
def counters_inv (c : Client) : Prop :=
  c.sent_total + (if c.is_sending then c.pending_send_len else 0)
    ≤ c.written_total

theorem qos0_loop_counters (fuel : Nat) :
    ∀ c : Client,
    (qos0_complete_loop fuel c).1.sent_total = c.sent_total
    ∧ (qos0_complete_loop fuel c).1.written_total = c.written_total
    ∧ (qos0_complete_loop fuel c).1.is_sending = c.is_sending
    ∧ (qos0_complete_loop fuel c).1.pending_send_len = c.pending_send_len
    ∧ (qos0_complete_loop fuel c).1.tx_buff = c.tx_buff := by
  induction fuel with
  | zero => intro c; simp [qos0_complete_loop]
  | succ n ih =>
    intro c
    unfold qos0_complete_loop
    cases h : request_get_pending c.requests (some 0) with
    | none => simp
    | some i =>
      simp only []
      split
      · exact ih { c with requests := request_delete c.requests i }
      · simp

theorem send_data_written_mono (c : Client)
    (h : c.written_total + c.tx_buff.content.length < 2 ^ 32) :
    c.written_total ≤ (send_data c).written_total := by
  unfold send_data gsm_buff_get_linear_block_read_length
  by_cases hs : c.is_sending
  · simp [hs]
  · simp only [hs, Bool.false_eq_true, if_false]
    split
    · simp
      omega
    · simp

theorem send_data_inv (c : Client)
    (hov : c.written_total + c.tx_buff.content.length < 2 ^ 32)
    (hinv : counters_inv c) : counters_inv (send_data c) := by
  unfold counters_inv at hinv ⊢
  unfold send_data gsm_buff_get_linear_block_read_length
  by_cases hs : c.is_sending
  · simpa [hs] using hinv
  · simp only [hs, Bool.false_eq_true, if_false] at hinv ⊢
    split
    · simp
      omega
    · simpa using hinv

theorem client_step_written_mono (c : Client) (e : TransportEv)
    (he : ev_ok c e) (hne : e ≠ TransportEv.evClose) :
    c.written_total ≤ (client_step c e).written_total := by
  cases e with
  | evClose => exact absurd rfl hne
  | evEnc bs =>
    unfold ev_ok at he
    show c.written_total
      ≤ (send_data { c with tx_buff := gsm_buff_write c.tx_buff bs }).written_total
    exact send_data_written_mono { c with tx_buff := gsm_buff_write c.tx_buff bs } (by
      show c.written_total + (gsm_buff_write c.tx_buff bs).content.length < 2 ^ 32
      simp only [gsm_buff_write, List.length_append, List.length_take]
      omega)
  | evSent len ok =>
    obtain ⟨hsend, hlen, hover⟩ := he
    cases ok with
    | true =>
      show c.written_total ≤ (mqtt_data_sent_cb c len true).1.written_total
      unfold mqtt_data_sent_cb
      simp only [Bool.not_true, Bool.false_eq_true, if_false]
      set c2 : Client := { c with
        is_sending := false
        pending_send_len := 0
        sent_total := (c.sent_total + len) % 2 ^ 32
        poll_time := 0
        tx_buff := gsm_buff_skip c.tx_buff len } with hc2
      have hq := qos0_loop_counters c2.requests.length c2
      have hov2 : (qos0_complete_loop c2.requests.length c2).1.written_total
          + (qos0_complete_loop c2.requests.length c2).1.tx_buff.content.length
          < 2 ^ 32 := by
        rw [hq.2.1, hq.2.2.2.2]
        show c.written_total + (List.drop len c.tx_buff.content).length < 2 ^ 32
        have hd := List.length_drop len c.tx_buff.content
        omega
      have hmono := send_data_written_mono _ hov2
      rw [hq.2.1] at hmono
      exact hmono
    | false =>
      show c.written_total ≤ (mqtt_data_sent_cb c len false).1.written_total
      unfold mqtt_data_sent_cb mqtt_close
      simp only [Bool.not_false, eq_self_iff_true, if_true]
      by_cases hcs : c.conn_state ≠ ConnState.disconnected
          ∧ c.conn_state ≠ ConnState.disconnecting
      · simp [hcs]
      · simp [hcs]

theorem client_step_preserves_inv (c : Client) (e : TransportEv)
    (he : ev_ok c e) (hinv : counters_inv c) :
    counters_inv (client_step c e) := by
  cases e with
  | evClose =>
    show counters_inv (mqtt_closed_cb c).1
    unfold mqtt_closed_cb counters_inv
    simp
  | evEnc bs =>
    unfold ev_ok at he
    show counters_inv (send_data { c with tx_buff := gsm_buff_write c.tx_buff bs })
    exact send_data_inv { c with tx_buff := gsm_buff_write c.tx_buff bs }
      (by
        show c.written_total + (gsm_buff_write c.tx_buff bs).content.length < 2 ^ 32
        simp only [gsm_buff_write, List.length_append, List.length_take]
        omega)
      (by unfold counters_inv at hinv ⊢; exact hinv)
  | evSent len ok =>
    obtain ⟨hsend, hlen, hover⟩ := he
    unfold counters_inv at hinv
    rw [hsend] at hinv
    simp only [if_true] at hinv
    have hsl : c.sent_total + len < 2 ^ 32 := by omega
    cases ok with
    | true =>
      show counters_inv (mqtt_data_sent_cb c len true).1
      unfold mqtt_data_sent_cb
      simp only [Bool.not_true, Bool.false_eq_true, if_false]
      set c2 : Client := { c with
        is_sending := false
        pending_send_len := 0
        sent_total := (c.sent_total + len) % 2 ^ 32
        poll_time := 0
        tx_buff := gsm_buff_skip c.tx_buff len } with hc2
      have hq := qos0_loop_counters c2.requests.length c2
      have hinv2 : counters_inv (qos0_complete_loop c2.requests.length c2).1 := by
        unfold counters_inv
        rw [hq.1, hq.2.1, hq.2.2.1]
        show (c.sent_total + len) % 2 ^ 32
            + (if false = true then (qos0_complete_loop c2.requests.length c2).1.pending_send_len else 0)
            ≤ c.written_total
        rw [Nat.mod_eq_of_lt hsl]
        simp only [Bool.false_eq_true, if_false]
        omega
      have hov2 : (qos0_complete_loop c2.requests.length c2).1.written_total
          + (qos0_complete_loop c2.requests.length c2).1.tx_buff.content.length
          < 2 ^ 32 := by
        rw [hq.2.1, hq.2.2.2.2]
        show c.written_total + (List.drop len c.tx_buff.content).length < 2 ^ 32
        have hd := List.length_drop len c.tx_buff.content
        omega
      exact send_data_inv _ hov2 hinv2
    | false =>
      show counters_inv (mqtt_data_sent_cb c len false).1
      unfold mqtt_data_sent_cb mqtt_close counters_inv
      simp only [Bool.not_false, eq_self_iff_true, if_true]
      by_cases hcs : c.conn_state ≠ ConnState.disconnected
          ∧ c.conn_state ≠ ConnState.disconnecting
      · rw [if_pos hcs]
        show (c.sent_total + len) % 2 ^ 32 + (if false = true then 0 else 0)
            ≤ c.written_total
        rw [Nat.mod_eq_of_lt hsl]
        simp only [Bool.false_eq_true, if_false]
        omega
      · rw [if_neg hcs]
        show (c.sent_total + len) % 2 ^ 32 + (if false = true then 0 else 0)
            ≤ c.written_total
        rw [Nat.mod_eq_of_lt hsl]
        simp only [Bool.false_eq_true, if_false]
        omega

theorem client_run_inv (tr : List TransportEv) :
    ∀ c : Client, trace_ok c tr → counters_inv c →
    counters_inv (client_run c tr) := by
  induction tr with
  | nil => intro c _ h; exact h
  | cons e es ih =>
    intro c htr hinv
    exact ih (client_step c e) htr.2 (client_step_preserves_inv c e htr.1 hinv)

/-- A client that has submitted nearly 2^32 bytes, with 100 more queued:
the state a long-lived connection reaches. -/
def overflowClient : Client :=
  { conn_state := ConnState.connected
    requests := [{}]
    tx_buff := { cap := 4294967295, content := List.replicate 100 0 }
    written_total := 4294967294
    sent_total := 4294967294 }

/-- C8 counterexample: the uint32_t counters wrap.  One more submission
from the overflow state drops written_total from 4294967294 to 98, so
written_total is not non-decreasing across (non-close) operations and
sent_total exceeds written_total afterwards. -/
theorem counters_wrap_violation :
    (client_step overflowClient (TransportEv.evEnc [])).written_total = 98
    ∧ overflowClient.written_total = 4294967294
    ∧ ¬ (overflowClient.written_total
        ≤ (client_step overflowClient (TransportEv.evEnc [])).written_total)
    ∧ (client_step overflowClient (TransportEv.evEnc [])).sent_total = 4294967294
    ∧ ¬ ((client_step overflowClient (TransportEv.evEnc [])).sent_total
        ≤ (client_step overflowClient (TransportEv.evEnc [])).written_total)
    ∧ TransportEv.evEnc [] ≠ TransportEv.evClose := by
  refine ⟨?_, rfl, ?_, ?_, ?_, by decide⟩ <;> decide

/-- C8 amended: as long as fewer than 2^32 bytes are cumulatively
submitted (the counters are uint32_t) and the transport honours its
contract, written_total is non-decreasing across every operation other
than close, sent_total never exceeds written_total in any state reachable
from a fresh client, and the close callback zeroes both counters. -/
theorem counters_monotone_and_bounded :
    (∀ (c : Client) (e : TransportEv), ev_ok c e → e ≠ TransportEv.evClose →
      c.written_total ≤ (client_step c e).written_total)
    ∧ (∀ n m (tr : List TransportEv), trace_ok (client_new n m) tr →
      (client_run (client_new n m) tr).sent_total
        ≤ (client_run (client_new n m) tr).written_total)
    ∧ (∀ c : Client, (client_step c TransportEv.evClose).written_total = 0
        ∧ (client_step c TransportEv.evClose).sent_total = 0) := by
  refine ⟨client_step_written_mono, ?_, ?_⟩
  · intro n m tr htr
    have h0 : counters_inv (client_new n m) := by
      unfold counters_inv client_new
      simp
    have h := client_run_inv tr (client_new n m) htr h0
    unfold counters_inv at h
    omega
  · intro c
    unfold client_step mqtt_closed_cb
    simp

/-- Witness for counters_monotone_and_bounded at concrete inputs. -/
theorem counters_monotone_and_bounded_witness :
    (client_new 16 2).written_total
      ≤ (client_step (client_new 16 2) (TransportEv.evEnc [1, 2, 3])).written_total
    ∧ (client_run (client_new 16 2) [TransportEv.evEnc [1, 2, 3]]).sent_total
      ≤ (client_run (client_new 16 2) [TransportEv.evEnc [1, 2, 3]]).written_total :=
  ⟨counters_monotone_and_bounded.1 (client_new 16 2) (TransportEv.evEnc [1, 2, 3])
      (by unfold ev_ok client_new; simp) (by decide),
   counters_monotone_and_bounded.2.1 16 2 [TransportEv.evEnc [1, 2, 3]]
      (by simp [trace_ok, ev_ok, client_new])⟩

/-! ## Claim C4: the streaming parser under chunk splits -/

/-- One dispatched message as the claim observes it: the header byte, the
remaining length, and the payload bytes handed to
mqtt_process_incoming_message. -/
structure DMsg where
  hdr : Nat
  remLen : Nat
  payload : List Nat
deriving DecidableEq, Repr

/-- The parser scratch state of the client (parser_state, msg_hdr_byte,
msg_rem_len, msg_rem_len_mult, msg_curr_pos) together with the rx staging
buffer and its length.  parser_state: 0 INIT, 1 CALC_REM_LEN, 2 READ_REM. -/
structure ParserSt where
  state : Nat := 0
  hdrByte : Nat := 0
  remLen : Nat := 0
  remLenMult : Nat := 0
  currPos : Nat := 0
  rxBuff : List Nat := []
  rxLen : Nat := 0
deriving DecidableEq, Repr

/-- The for loop of mqtt_parse_incoming over one linear chunk.  INIT
stores the header byte and clears the scratch; CALC_REM_LEN accumulates
the remaining length and, on the final length byte, either dispatches a
zero-length frame, dispatches in place when the rest of the chunk already
holds the whole payload ((buff_len - idx) > msg_rem_len, i.e. at least
rem_len bytes follow) and skips it, or moves to READ_REM; READ_REM stores
each byte into the staging buffer when it fits, and on the last byte
dispatches only if the frame fit (msg_curr_pos ≤ rx_buff_len).  An unknown
parser state falls back to INIT. -/
def processChunk (p : ParserSt) (l : List Nat) : ParserSt × List DMsg :=
  match l with
  | [] => (p, [])
  | ch :: rest =>
    if p.state = 0 then
      processChunk
        { p with
          hdrByte := ch
          remLen := 0
          remLenMult := 0
          currPos := 0
          state := 1 } rest
    else if p.state = 1 then
      let rem := calc_rem_len_step p.remLen p.remLenMult ch
      let p1 :=
        { p with
          remLen := rem
          remLenMult := (p.remLenMult + 1) % 256 }
      if ch &&& 0x80 ≠ 0 then
        processChunk p1 rest
      else if rem > 0 then
        if rest.length ≥ rem then
          ((processChunk { p1 with state := 0 } (rest.drop rem)).1,
            ⟨p1.hdrByte, rem, rest.take rem⟩
              :: (processChunk { p1 with state := 0 } (rest.drop rem)).2)
        else
          processChunk { p1 with state := 2 } rest
      else
        ((processChunk { p1 with state := 0 } rest).1,
          ⟨p1.hdrByte, 0, []⟩ :: (processChunk { p1 with state := 0 } rest).2)
    else if p.state = 2 then
      let p1 :=
        { p with
          rxBuff := if p.currPos < p.rxLen then p.rxBuff.set p.currPos ch else p.rxBuff
          currPos := p.currPos + 1 }
      if p1.currPos = p1.remLen then
        if p1.currPos ≤ p1.rxLen then
          ((processChunk { p1 with state := 0 } rest).1,
            ⟨p1.hdrByte, p1.remLen, p1.rxBuff.take p1.remLen⟩
              :: (processChunk { p1 with state := 0 } rest).2)
        else
          processChunk { p1 with state := 0 } rest
      else
        processChunk p1 rest
    else
      processChunk { p with state := 0 } rest
termination_by l.length
decreasing_by
  all_goals simp
  all_goals omega

/-- Feeding a sequence of receive chunks to the parser, collecting the
dispatched messages in order. -/
def runChunks (p : ParserSt) : List (List Nat) → ParserSt × List DMsg
  | [] => (p, [])
  | chunk :: rest =>
    ((runChunks (processChunk p chunk).1 rest).1,
     (processChunk p chunk).2 ++ (runChunks (processChunk p chunk).1 rest).2)

/-- The parser state of a freshly connected client with staging buffer
rx0: INIT, scratch zeroed. -/
def initParser (rx0 : List Nat) : ParserSt :=
  { rxBuff := rx0, rxLen := rx0.length }

/-- The byte-at-a-time reference machine: the same header/length/payload
automaton without the staging buffer or the zero-copy fast path; a frame
is always dispatched in full when its last byte arrives. -/
inductive PMode
  | pInit
  | pCalc (hdr rem mult : Nat)
  | pRead (hdr rem : Nat) (acc : List Nat)
deriving DecidableEq, Repr

def pureStep : PMode → Nat → PMode × Option DMsg
  | PMode.pInit, ch => (PMode.pCalc ch 0 0, none)
  | PMode.pCalc hdr rem mult, ch =>
    let rem2 := calc_rem_len_step rem mult ch
    if ch &&& 0x80 ≠ 0 then (PMode.pCalc hdr rem2 ((mult + 1) % 256), none)
    else if rem2 > 0 then (PMode.pRead hdr rem2 [], none)
    else (PMode.pInit, some ⟨hdr, 0, []⟩)
  | PMode.pRead hdr rem acc, ch =>
    let acc2 := acc ++ [ch]
    if acc2.length = rem then (PMode.pInit, some ⟨hdr, rem, acc2⟩)
    else (PMode.pRead hdr rem acc2, none)

def pureRun : PMode → List Nat → PMode × List DMsg
  | m, [] => (m, [])
  | m, ch :: rest =>
    ((pureRun (pureStep m ch).1 rest).1,
     (pureStep m ch).2.toList ++ (pureRun (pureStep m ch).1 rest).2)

/-- The simulation relation between the client parser state and the
reference machine. -/
def SimRel (p : ParserSt) : PMode → Prop
  | PMode.pInit => p.state = 0 ∧ p.rxBuff.length = p.rxLen
  | PMode.pCalc hdr rem mult =>
      p.state = 1 ∧ p.hdrByte = hdr ∧ p.remLen = rem ∧ p.remLenMult = mult
      ∧ p.currPos = 0 ∧ p.rxBuff.length = p.rxLen
  | PMode.pRead hdr rem acc =>
      p.state = 2 ∧ p.hdrByte = hdr ∧ p.remLen = rem ∧ p.currPos = acc.length
      ∧ acc.length < rem
      ∧ (acc.length ≤ p.rxLen → p.rxBuff.take acc.length = acc)
      ∧ p.rxBuff.length = p.rxLen

/-- Claim C4, counterexample: with a 1-byte rx staging buffer, the frame
20 02 00 00 split as (20 02 00)(00) is discarded by the slow path
(msg_curr_pos = 2 > rx_buff_len = 1), but fed as one chunk the zero-copy
fast path dispatches it without consulting rx_buff_len: the dispatch
sequences differ, refuting chunk-split invariance as stated. -/
theorem parser_chunk_split_divergence :
    (runChunks (initParser [0]) [[0x20, 0x02, 0x00], [0x00]]).2 = []
    ∧ (runChunks (initParser [0]) [[0x20, 0x02, 0x00, 0x00]]).2
        = [⟨0x20, 2, [0x00, 0x00]⟩]
    ∧ ([] : List DMsg) ≠ [⟨0x20, 2, [0x00, 0x00]⟩] := by
  have h1 : calc_rem_len_step 0 0 2 = 2 := by decide
  have h2 : 2 &&& 128 = 0 := by decide
  refine ⟨?_, ?_, by decide⟩
  · simp [runChunks, processChunk, initParser, h1, h2]
  · simp [runChunks, processChunk, initParser, h1, h2]

/-- Unfolding processChunk in the INIT state. -/
theorem processChunk_init (p : ParserSt) (ch : Nat) (rest : List Nat)
    (hp : p.state = 0) :
    processChunk p (ch :: rest)
      = processChunk
          { p with
            hdrByte := ch
            remLen := 0
            remLenMult := 0
            currPos := 0
            state := 1 } rest := by
  rw [processChunk]
  rw [if_pos hp]

/-- Unfolding processChunk on a continuation length byte (bit 7 set). -/
theorem processChunk_calc_cont (p : ParserSt) (ch : Nat) (rest : List Nat)
    (hp : p.state = 1) (hc : ch &&& 0x80 ≠ 0) :
    processChunk p (ch :: rest)
      = processChunk
          { p with
            remLen := calc_rem_len_step p.remLen p.remLenMult ch
            remLenMult := (p.remLenMult + 1) % 256 } rest := by
  rw [processChunk]
  simp [hp, hc]

/-- Unfolding processChunk on the final length byte when the whole payload
is already in the chunk: the zero-copy fast path dispatches in place. -/
theorem processChunk_calc_fast (p : ParserSt) (ch : Nat) (rest : List Nat)
    (rem : Nat) (hp : p.state = 1) (hc : ch &&& 0x80 = 0)
    (hrem : calc_rem_len_step p.remLen p.remLenMult ch = rem)
    (hpos : 0 < rem) (hfit : rem ≤ rest.length) :
    processChunk p (ch :: rest)
      = ((processChunk
            { p with
              remLen := rem
              remLenMult := (p.remLenMult + 1) % 256
              state := 0 } (rest.drop rem)).1,
          DMsg.mk p.hdrByte rem (rest.take rem)
            :: (processChunk
                  { p with
                    remLen := rem
                    remLenMult := (p.remLenMult + 1) % 256
                    state := 0 } (rest.drop rem)).2) := by
  rw [processChunk]
  simp [hp, hc, hrem, hpos, hfit]

/-- Unfolding processChunk on the final length byte when the payload does
not fit in the rest of the chunk: move to READ_REM. -/
theorem processChunk_calc_slow (p : ParserSt) (ch : Nat) (rest : List Nat)
    (rem : Nat) (hp : p.state = 1) (hc : ch &&& 0x80 = 0)
    (hrem : calc_rem_len_step p.remLen p.remLenMult ch = rem)
    (hpos : 0 < rem) (hnofit : rest.length < rem) :
    processChunk p (ch :: rest)
      = processChunk
          { p with
            remLen := rem
            remLenMult := (p.remLenMult + 1) % 256
            state := 2 } rest := by
  rw [processChunk]
  simp [hp, hc, hrem, hpos, Nat.not_le.mpr hnofit, Nat.lt_irrefl]

/-- Unfolding processChunk on the final length byte of a zero-length
frame: dispatch with empty payload. -/
theorem processChunk_calc_zero (p : ParserSt) (ch : Nat) (rest : List Nat)
    (hp : p.state = 1) (hc : ch &&& 0x80 = 0)
    (hrem : calc_rem_len_step p.remLen p.remLenMult ch = 0) :
    processChunk p (ch :: rest)
      = ((processChunk
            { p with
              remLen := 0
              remLenMult := (p.remLenMult + 1) % 256
              state := 0 } rest).1,
          DMsg.mk p.hdrByte 0 []
            :: (processChunk
                  { p with
                    remLen := 0
                    remLenMult := (p.remLenMult + 1) % 256
                    state := 0 } rest).2) := by
  rw [processChunk]
  simp [hp, hc, hrem]

/-- Unfolding processChunk on a payload byte that is not the last one. -/
theorem processChunk_read_cont (p : ParserSt) (ch : Nat) (rest : List Nat)
    (hp : p.state = 2) (hne : p.currPos + 1 ≠ p.remLen) :
    processChunk p (ch :: rest)
      = processChunk
          { p with
            rxBuff :=
              if p.currPos < p.rxLen then p.rxBuff.set p.currPos ch else p.rxBuff
            currPos := p.currPos + 1 } rest := by
  rw [processChunk]
  simp [hp, hne]

/-- Unfolding processChunk on the last payload byte when the frame fit the
staging buffer: dispatch from the staging buffer. -/
theorem processChunk_read_done_fit (p : ParserSt) (ch : Nat) (rest : List Nat)
    (hp : p.state = 2) (heq : p.currPos + 1 = p.remLen)
    (hfit : p.currPos + 1 ≤ p.rxLen) :
    processChunk p (ch :: rest)
      = ((processChunk
            { p with
              rxBuff :=
                if p.currPos < p.rxLen then p.rxBuff.set p.currPos ch else p.rxBuff
              currPos := p.currPos + 1
              state := 0 } rest).1,
          DMsg.mk p.hdrByte p.remLen
            ((if p.currPos < p.rxLen then p.rxBuff.set p.currPos ch
              else p.rxBuff).take p.remLen)
            :: (processChunk
                  { p with
                    rxBuff :=
                      if p.currPos < p.rxLen then p.rxBuff.set p.currPos ch
                      else p.rxBuff
                    currPos := p.currPos + 1
                    state := 0 } rest).2) := by
  rw [processChunk]
  simp [hp, heq, hfit]
  intro h
  exact absurd (heq ▸ hfit) (Nat.not_le.mpr h)

/-- Unfolding processChunk on the last payload byte when the frame was too
big for the staging buffer: the frame is discarded, no dispatch. -/
theorem processChunk_read_done_nofit (p : ParserSt) (ch : Nat) (rest : List Nat)
    (hp : p.state = 2) (heq : p.currPos + 1 = p.remLen)
    (hnofit : p.rxLen < p.currPos + 1) :
    processChunk p (ch :: rest)
      = processChunk
          { p with
            rxBuff :=
              if p.currPos < p.rxLen then p.rxBuff.set p.currPos ch else p.rxBuff
            currPos := p.currPos + 1
            state := 0 } rest := by
  rw [processChunk]
  simp [hp, heq, Nat.not_le.mpr hnofit]
  intro h
  exact absurd h (Nat.not_le.mpr (heq ▸ hnofit))

/-- Writing one byte at position i of the staging buffer extends the
valid prefix by that byte. -/
theorem take_set_append :
    ∀ (l : List Nat) (i : Nat) (x : Nat), i < l.length →
      (l.set i x).take (i + 1) = l.take i ++ [x] := by
  intro l
  induction l with
  | nil => intro i x h; exact absurd h (by simp)
  | cons a l ih =>
    intro i x h
    cases i with
    | zero => simp
    | succ i =>
      simp only [List.set_cons_succ, List.take_succ_cons, List.cons_append]
      rw [ih i x (by simpa using h)]

/-- The reference machine consumes a full payload k for the open frame and
dispatches it, then continues from INIT. -/
theorem pureRun_read_all :
    ∀ (k : List Nat) (hdr rem : Nat) (acc s : List Nat),
      k ≠ [] → acc.length + k.length = rem →
      pureRun (PMode.pRead hdr rem acc) (k ++ s)
        = ((pureRun PMode.pInit s).1,
           DMsg.mk hdr rem (acc ++ k) :: (pureRun PMode.pInit s).2) := by
  intro k
  induction k with
  | nil => intro hdr rem acc s hne _; exact absurd rfl hne
  | cons ch k ih =>
    intro hdr rem acc s _ hlen
    by_cases hk : k = []
    · subst hk
      have hr : (acc ++ [ch]).length = rem := by
        simp at hlen ⊢
        omega
      simp [pureRun, pureStep, hr]
    · have hr : ¬ (acc.length + 1 = rem) := by
        have := List.length_pos.mpr hk
        simp at hlen
        omega
      have step := ih hdr rem (acc ++ [ch]) s hk (by simp at hlen ⊢; omega)
      simp only [List.cons_append]
      simp [pureRun, pureStep, hr, step]

/-- Running the reference machine over a concatenation splits into the two
runs with the dispatch lists appended. -/
theorem pureRun_append :
    ∀ (a : List Nat) (m : PMode) (b : List Nat),
      pureRun m (a ++ b)
        = ((pureRun (pureRun m a).1 b).1,
           (pureRun m a).2 ++ (pureRun (pureRun m a).1 b).2) := by
  intro a
  induction a with
  | nil => intro m b; simp [pureRun]
  | cons ch a ih =>
    intro m b
    simp only [List.cons_append]
    simp [pureRun, ih]

/-- The chunk parser refines the byte-at-a-time reference machine, as
long as every frame the reference machine dispatches from the given bytes
fits the staging buffer: the dispatched messages agree, the simulation
relation is preserved, and the staging capacity is unchanged. -/
theorem processChunk_sim :
    ∀ (n : Nat) (l : List Nat), l.length ≤ n → ∀ (p : ParserSt) (m : PMode),
      SimRel p m →
      (∀ d ∈ (pureRun m l).2, d.remLen ≤ p.rxLen) →
      (processChunk p l).2 = (pureRun m l).2
      ∧ SimRel (processChunk p l).1 (pureRun m l).1
      ∧ (processChunk p l).1.rxLen = p.rxLen := by
  intro n
  induction n with
  | zero =>
    intro l hl p m hsim _
    have hnil : l = [] := List.eq_nil_of_length_eq_zero (Nat.le_zero.mp hl)
    subst hnil
    have hc0 : processChunk p [] = (p, []) := by rw [processChunk]
    rw [hc0]
    exact ⟨rfl, hsim, rfl⟩
  | succ n ih =>
    intro l hl p m hsim hH
    cases l with
    | nil =>
      have hc0 : processChunk p [] = (p, []) := by rw [processChunk]
      rw [hc0]
      exact ⟨rfl, hsim, rfl⟩
    | cons ch rest =>
      have hrest : rest.length ≤ n := by
        simp at hl
        omega
      cases m with
      | pInit =>
        obtain ⟨hs0, hlen⟩ := hsim
        have hcp := processChunk_init p ch rest hs0
        have hpr : pureRun PMode.pInit (ch :: rest)
            = ((pureRun (PMode.pCalc ch 0 0) rest).1,
               (pureRun (PMode.pCalc ch 0 0) rest).2) := by
          simp [pureRun, pureStep]
        have hH2 : ∀ d ∈ (pureRun (PMode.pCalc ch 0 0) rest).2,
            d.remLen ≤ p.rxLen := by
          intro d hd
          apply hH
          rw [hpr]
          exact hd
        obtain ⟨e1, e2, e3⟩ := ih rest hrest
          { p with hdrByte := ch, remLen := 0, remLenMult := 0, currPos := 0, state := 1 }
          (PMode.pCalc ch 0 0) ⟨rfl, rfl, rfl, rfl, rfl, hlen⟩ hH2
        rw [hcp, hpr]
        exact ⟨e1, e2, e3⟩
      | pCalc hdr rem0 mult =>
        obtain ⟨hs1, hhdr, hrem0, hmult, hcur, hlen⟩ := hsim
        subst hhdr
        subst hrem0
        subst hmult
        by_cases hc : ch &&& 0x80 = 0
        · obtain ⟨rem2, hg⟩ : ∃ r, calc_rem_len_step p.remLen p.remLenMult ch = r :=
            ⟨_, rfl⟩
          by_cases hz : rem2 = 0
          · subst hz
            have hcp := processChunk_calc_zero p ch rest hs1 hc hg
            have hpr : pureRun (PMode.pCalc p.hdrByte p.remLen p.remLenMult) (ch :: rest)
                = ((pureRun PMode.pInit rest).1,
                   DMsg.mk p.hdrByte 0 [] :: (pureRun PMode.pInit rest).2) := by
              simp [pureRun, pureStep, hc, hg]
            have hH2 : ∀ d ∈ (pureRun PMode.pInit rest).2, d.remLen ≤ p.rxLen := by
              intro d hd
              apply hH
              rw [hpr]
              exact List.mem_cons_of_mem _ hd
            obtain ⟨e1, e2, e3⟩ := ih rest hrest
              { p with remLen := 0, remLenMult := (p.remLenMult + 1) % 256, state := 0 }
              PMode.pInit ⟨rfl, hlen⟩ hH2
            rw [hcp, hpr]
            exact ⟨by rw [e1], e2, e3⟩
          · have hpos : 0 < rem2 := Nat.pos_of_ne_zero hz
            have hps : pureStep (PMode.pCalc p.hdrByte p.remLen p.remLenMult) ch
                = (PMode.pRead p.hdrByte rem2 [], none) := by
              simp [pureStep, hc, hg, hz]
            by_cases hfit : rem2 ≤ rest.length
            · have hcp := processChunk_calc_fast p ch rest rem2 hs1 hc hg hpos hfit
              have hkne : rest.take rem2 ≠ [] := by
                have : (rest.take rem2).length = rem2 := by
                  simp [List.length_take, Nat.min_eq_left hfit]
                intro hnil
                rw [hnil] at this
                simp at this
                omega
              have hklen : ([] : List Nat).length + (rest.take rem2).length = rem2 := by
                simp [List.length_take, Nat.min_eq_left hfit]
              have h2 : pureRun (PMode.pRead p.hdrByte rem2 []) rest
                  = ((pureRun PMode.pInit (rest.drop rem2)).1,
                     DMsg.mk p.hdrByte rem2 (rest.take rem2)
                       :: (pureRun PMode.pInit (rest.drop rem2)).2) := by
                conv_lhs => rw [← List.take_append_drop rem2 rest]
                rw [pureRun_read_all (rest.take rem2) p.hdrByte rem2 [] (rest.drop rem2)
                  hkne hklen]
                rw [List.nil_append]
              have hpr : pureRun (PMode.pCalc p.hdrByte p.remLen p.remLenMult) (ch :: rest)
                  = ((pureRun PMode.pInit (rest.drop rem2)).1,
                     DMsg.mk p.hdrByte rem2 (rest.take rem2)
                       :: (pureRun PMode.pInit (rest.drop rem2)).2) := by
                rw [pureRun]
                rw [hps, h2]
                simp
              have hH2 : ∀ d ∈ (pureRun PMode.pInit (rest.drop rem2)).2,
                  d.remLen ≤ p.rxLen := by
                intro d hd
                apply hH
                rw [hpr]
                exact List.mem_cons_of_mem _ hd
              have hdrop : (rest.drop rem2).length ≤ n := by
                simp [List.length_drop]
                omega
              obtain ⟨e1, e2, e3⟩ := ih (rest.drop rem2) hdrop
                { p with remLen := rem2, remLenMult := (p.remLenMult + 1) % 256, state := 0 }
                PMode.pInit ⟨rfl, hlen⟩ hH2
              rw [hcp, hpr]
              exact ⟨by rw [e1], e2, e3⟩
            · have hcp := processChunk_calc_slow p ch rest rem2 hs1 hc hg hpos
                (Nat.not_le.mp hfit)
              have hpr : pureRun (PMode.pCalc p.hdrByte p.remLen p.remLenMult) (ch :: rest)
                  = ((pureRun (PMode.pRead p.hdrByte rem2 []) rest).1,
                     (pureRun (PMode.pRead p.hdrByte rem2 []) rest).2) := by
                rw [pureRun]
                rw [hps]
                simp
              have hH2 : ∀ d ∈ (pureRun (PMode.pRead p.hdrByte rem2 []) rest).2,
                  d.remLen ≤ p.rxLen := by
                intro d hd
                apply hH
                rw [hpr]
                exact hd
              obtain ⟨e1, e2, e3⟩ := ih rest hrest
                { p with remLen := rem2, remLenMult := (p.remLenMult + 1) % 256, state := 2 }
                (PMode.pRead p.hdrByte rem2 [])
                ⟨rfl, rfl, rfl, hcur, hpos, fun _ => rfl, hlen⟩ hH2
              rw [hcp, hpr]
              exact ⟨e1, e2, e3⟩
        · have hcp := processChunk_calc_cont p ch rest hs1 hc
          have hpr : pureRun (PMode.pCalc p.hdrByte p.remLen p.remLenMult) (ch :: rest)
              = ((pureRun (PMode.pCalc p.hdrByte
                    (calc_rem_len_step p.remLen p.remLenMult ch)
                    ((p.remLenMult + 1) % 256)) rest).1,
                 (pureRun (PMode.pCalc p.hdrByte
                    (calc_rem_len_step p.remLen p.remLenMult ch)
                    ((p.remLenMult + 1) % 256)) rest).2) := by
            simp [pureRun, pureStep, hc]
          have hH2 : ∀ d ∈ (pureRun (PMode.pCalc p.hdrByte
                (calc_rem_len_step p.remLen p.remLenMult ch)
                ((p.remLenMult + 1) % 256)) rest).2,
              d.remLen ≤ p.rxLen := by
            intro d hd
            apply hH
            rw [hpr]
            exact hd
          obtain ⟨e1, e2, e3⟩ := ih rest hrest
            { p with
                remLen := calc_rem_len_step p.remLen p.remLenMult ch,
                remLenMult := (p.remLenMult + 1) % 256 }
            (PMode.pCalc p.hdrByte (calc_rem_len_step p.remLen p.remLenMult ch)
              ((p.remLenMult + 1) % 256))
            ⟨hs1, rfl, rfl, rfl, hcur, hlen⟩ hH2
          rw [hcp, hpr]
          exact ⟨e1, e2, e3⟩
      | pRead hdr rem acc =>
        obtain ⟨hs2, hhdr, hrem, hcur, hlt, hpre, hlen⟩ := hsim
        subst hhdr
        subst hrem
        by_cases hdone : acc.length + 1 = p.remLen
        · have hpr : pureRun (PMode.pRead p.hdrByte p.remLen acc) (ch :: rest)
              = ((pureRun PMode.pInit rest).1,
                 DMsg.mk p.hdrByte p.remLen (acc ++ [ch])
                   :: (pureRun PMode.pInit rest).2) := by
            simp [pureRun, pureStep, hdone]
          have hreq : p.remLen ≤ p.rxLen := by
            have hmem : DMsg.mk p.hdrByte p.remLen (acc ++ [ch])
                ∈ (pureRun (PMode.pRead p.hdrByte p.remLen acc) (ch :: rest)).2 := by
              rw [hpr]
              exact List.mem_cons_self _ _
            exact hH _ hmem
          have heq2 : p.currPos + 1 = p.remLen := by omega
          have hfit : p.currPos + 1 ≤ p.rxLen := by omega
          have hwrite : p.currPos < p.rxLen := by omega
          have hcp := processChunk_read_done_fit p ch rest hs2 heq2 hfit
          have hpay : (if p.currPos < p.rxLen then p.rxBuff.set p.currPos ch
              else p.rxBuff).take p.remLen = acc ++ [ch] := by
            rw [if_pos hwrite]
            rw [← heq2]
            rw [hcur]
            rw [take_set_append p.rxBuff acc.length ch (by omega)]
            rw [hpre (by omega)]
          have hH2 : ∀ d ∈ (pureRun PMode.pInit rest).2, d.remLen ≤ p.rxLen := by
            intro d hd
            apply hH
            rw [hpr]
            exact List.mem_cons_of_mem _ hd
          have hlen2 : (if p.currPos < p.rxLen then p.rxBuff.set p.currPos ch
              else p.rxBuff).length = p.rxLen := by
            rw [if_pos hwrite]
            rw [List.length_set]
            exact hlen
          obtain ⟨e1, e2, e3⟩ := ih rest hrest
            { p with
                rxBuff := if p.currPos < p.rxLen then p.rxBuff.set p.currPos ch
                  else p.rxBuff,
                currPos := p.currPos + 1,
                state := 0 }
            PMode.pInit ⟨rfl, hlen2⟩ hH2
          rw [hcp, hpr]
          exact ⟨by rw [hpay, e1], e2, e3⟩
        · have hne : p.currPos + 1 ≠ p.remLen := by omega
          have hcp := processChunk_read_cont p ch rest hs2 hne
          have hpr : pureRun (PMode.pRead p.hdrByte p.remLen acc) (ch :: rest)
              = ((pureRun (PMode.pRead p.hdrByte p.remLen (acc ++ [ch])) rest).1,
                 (pureRun (PMode.pRead p.hdrByte p.remLen (acc ++ [ch])) rest).2) := by
            simp [pureRun, pureStep, hdone]
          have hH2 : ∀ d ∈ (pureRun (PMode.pRead p.hdrByte p.remLen (acc ++ [ch])) rest).2,
              d.remLen ≤ p.rxLen := by
            intro d hd
            apply hH
            rw [hpr]
            exact hd
          have hcur2 : p.currPos + 1 = (acc ++ [ch]).length := by
            simp [hcur]
          have hlt2 : (acc ++ [ch]).length < p.remLen := by
            simp
            omega
          have hpre2 : (acc ++ [ch]).length ≤ p.rxLen →
              (if p.currPos < p.rxLen then p.rxBuff.set p.currPos ch
                else p.rxBuff).take (acc ++ [ch]).length = acc ++ [ch] := by
            intro h
            simp only [List.length_append, List.length_cons, List.length_nil] at h
            have hw : p.currPos < p.rxLen := by omega
            rw [if_pos hw]
            simp only [List.length_append, List.length_cons, List.length_nil]
            rw [hcur]
            rw [take_set_append p.rxBuff acc.length ch (by omega)]
            rw [hpre (by omega)]
          have hlen2 : (if p.currPos < p.rxLen then p.rxBuff.set p.currPos ch
              else p.rxBuff).length = p.rxLen := by
            split
            · rw [List.length_set]
              exact hlen
            · exact hlen
          obtain ⟨e1, e2, e3⟩ := ih rest hrest
            { p with
                rxBuff := if p.currPos < p.rxLen then p.rxBuff.set p.currPos ch
                  else p.rxBuff,
                currPos := p.currPos + 1 }
            (PMode.pRead p.hdrByte p.remLen (acc ++ [ch]))
            ⟨hs2, rfl, rfl, hcur2, hlt2, hpre2, hlen2⟩ hH2
          rw [hcp, hpr]
          exact ⟨e1, e2, e3⟩

/-- Chunked runs refine the reference machine on the joined byte stream,
as long as every dispatched frame fits the staging buffer. -/
theorem runChunks_sim :
    ∀ (css : List (List Nat)) (p : ParserSt) (m : PMode),
      SimRel p m →
      (∀ d ∈ (pureRun m css.join).2, d.remLen ≤ p.rxLen) →
      (runChunks p css).2 = (pureRun m css.join).2
      ∧ SimRel (runChunks p css).1 (pureRun m css.join).1
      ∧ (runChunks p css).1.rxLen = p.rxLen := by
  intro css
  induction css with
  | nil =>
    intro p m hsim _
    exact ⟨rfl, hsim, rfl⟩
  | cons cs css ih =>
    intro p m hsim hH
    have hpa := pureRun_append cs m css.join
    have hH1 : ∀ d ∈ (pureRun m cs).2, d.remLen ≤ p.rxLen := by
      intro d hd
      apply hH
      simp only [List.join_cons]
      rw [hpa]
      exact List.mem_append_left _ hd
    obtain ⟨e1, e2, e3⟩ := processChunk_sim cs.length cs le_rfl p m hsim hH1
    have hH2 : ∀ d ∈ (pureRun (pureRun m cs).1 css.join).2,
        d.remLen ≤ (processChunk p cs).1.rxLen := by
      intro d hd
      rw [e3]
      apply hH
      simp only [List.join_cons]
      rw [hpa]
      exact List.mem_append_right _ hd
    obtain ⟨f1, f2, f3⟩ := ih (processChunk p cs).1 (pureRun m cs).1 e2 hH2
    refine ⟨?_, ?_, ?_⟩
    · show (processChunk p cs).2 ++ (runChunks (processChunk p cs).1 css).2
          = (pureRun m (cs :: css).join).2
      simp only [List.join_cons]
      rw [hpa]
      rw [e1, f1]
    · show SimRel (runChunks (processChunk p cs).1 css).1 (pureRun m (cs :: css).join).1
      simp only [List.join_cons]
      rw [hpa]
      exact f2
    · show (runChunks (processChunk p cs).1 css).1.rxLen = p.rxLen
      rw [f3, e3]

/-- Claim C4 (amended): provided every frame dispatched from the byte
stream has remaining length at most the rx staging buffer capacity, the
parser produces the same dispatch sequence for every chunk split of the
stream as for the whole stream in one chunk; in particular feeding CONNACK
as 20 then 02 00 00 yields exactly one dispatch.  (Without the proviso the
fast and slow paths disagree on oversized frames, see the
counterexample.) -/
theorem parser_chunk_invariance (rx0 : List Nat) (css : List (List Nat))
    (hH : ∀ d ∈ (pureRun PMode.pInit css.join).2, d.remLen ≤ rx0.length) :
    (runChunks (initParser rx0) css).2 = (runChunks (initParser rx0) [css.join]).2
    ∧ (runChunks (initParser [0, 0, 0, 0]) [[0x20], [0x02, 0x00, 0x00]]).2
        = [DMsg.mk 0x20 2 [0x00, 0x00]] := by
  constructor
  · have hsim : SimRel (initParser rx0) PMode.pInit := ⟨rfl, rfl⟩
    have hjj : ([css.join] : List (List Nat)).join = css.join := by simp
    obtain ⟨e1, _, _⟩ := runChunks_sim css (initParser rx0) PMode.pInit hsim hH
    obtain ⟨f1, _, _⟩ := runChunks_sim [css.join] (initParser rx0) PMode.pInit hsim
      (by intro d hd; rw [hjj] at hd; exact hH d hd)
    rw [hjj] at f1
    rw [e1, f1]
  · have hsim : SimRel (initParser [0, 0, 0, 0]) PMode.pInit := ⟨rfl, rfl⟩
    have hHc : ∀ d ∈ (pureRun PMode.pInit
        ([[0x20], [0x02, 0x00, 0x00]] : List (List Nat)).join).2,
        d.remLen ≤ (initParser [0, 0, 0, 0]).rxLen := by decide
    obtain ⟨e1, _, _⟩ := runChunks_sim [[0x20], [0x02, 0x00, 0x00]]
      (initParser [0, 0, 0, 0]) PMode.pInit hsim hHc
    rw [e1]
    decide

/-- Witness for parser_chunk_invariance: the CONNACK frame split as
(20)(02 00 00) into a 4-byte staging buffer dispatches once, identically
to the single-chunk run. -/
theorem parser_chunk_invariance_witness :
    (runChunks (initParser [0, 0, 0, 0]) [[0x20], [0x02, 0x00, 0x00]]).2
        = (runChunks (initParser [0, 0, 0, 0])
            [([[0x20], [0x02, 0x00, 0x00]] : List (List Nat)).join]).2
    ∧ (runChunks (initParser [0, 0, 0, 0]) [[0x20], [0x02, 0x00, 0x00]]).2
        = [DMsg.mk 0x20 2 [0x00, 0x00]] :=
  parser_chunk_invariance [0, 0, 0, 0] [[0x20], [0x02, 0x00, 0x00]] (by decide)

end MqttClient
